import Mathlib

/-!
Verification development for the podcast summarizer's resolution pipeline
(src/collector.py).  Text is modelled as `List Char`; Python floats are
modelled as rationals; network calls and provider backends are modelled as
explicit function parameters; exceptions are modelled with `Except`.
-/

namespace Podcast

section Development

attribute [local semireducible] Rat.mul Rat.inv Rat.add Rat.sub

set_option maxRecDepth 8000

abbrev Chars := List Char

/-- Error kinds of §7 of the spec.  The source raises plain exceptions; the
spec assigns them these names. -/
inductive PErr where
  | invalidReference
  | notFound
  | feedNotFound
  | episodeNotFound
  | downloadError
  | providerError
deriving DecidableEq

/-! ## difflib.SequenceMatcher
The scorer in the source is `SequenceMatcher(None, a, b).ratio()` from the
Python standard library, lowercasing both inputs at every call site.  The
embedding below reproduces difflib's Ratcliff-Obershelp matcher:
`find_longest_match` (the j2len dynamic program plus the two extension
loops) and the recursive matching-block sum behind `ratio`.  The autojunk
heuristic is omitted: it only alters behaviour when the second string has
200 or more characters, and every concrete input settled here is far
shorter, where the embedding agrees with difflib exactly (this was checked
against CPython's difflib by exhaustive comparison on short strings). -/

/-- Whether positions `i` of `a` and `j` of `b` are in range and hold the
same character (difflib compares `a[i] == b[j]`). -/
def matchAt (a b : Chars) (i j : Nat) : Bool :=
  decide (i < a.length) && decide (j < b.length) &&
    decide (a.getD i '?' = b.getD j '?')

/-- The run length difflib records at column `j` of the current row:
`j2len.get(j-1, 0) + 1` read from the previous row's map (the map holds no
keys below `blo`). -/
def colK (blo : Nat) (old : Nat → Nat) (j : Nat) : Nat :=
  (if blo < j then old (j - 1) else 0) + 1

/-- One column step of difflib's `find_longest_match` inner loop: state is
the new j2len map (total function, 0 outside its keys) together with the
running best block `(besti, bestj, bestsize)`. -/
def colStep (a b : Chars) (i blo : Nat) (old : Nat → Nat)
    (st : (Nat → Nat) × Nat × Nat × Nat) (j : Nat) : (Nat → Nat) × Nat × Nat × Nat :=
  if matchAt a b i j then
    if st.2.2.2 < colK blo old j then
      (fun x => if x = j then colK blo old j else st.1 x,
        i + 1 - colK blo old j, j + 1 - colK blo old j, colK blo old j)
    else
      (fun x => if x = j then colK blo old j else st.1 x, st.2.1, st.2.2.1, st.2.2.2)
  else st

/-- The inner loop of `find_longest_match`: scan `m` columns starting at
`j`. -/
def rowLoop (a b : Chars) (i blo : Nat) (old : Nat → Nat) :
    Nat → Nat → ((Nat → Nat) × Nat × Nat × Nat) → (Nat → Nat) × Nat × Nat × Nat
  | 0, _, st => st
  | m + 1, j, st => rowLoop a b i blo old m (j + 1) (colStep a b i blo old st j)

/-- The empty j2len map (`{}` in difflib; a total function that is 0
everywhere). -/
def zeroMap : Nat → Nat := fun _ => 0

/-- The outer loop of `find_longest_match`: process `n` rows starting at
row `i`; each row starts from an empty j2len map, reading the previous
row's map. -/
def rowsLoop (a b : Chars) (blo bhi : Nat) :
    Nat → Nat → ((Nat → Nat) × Nat × Nat × Nat) → (Nat → Nat) × Nat × Nat × Nat
  | 0, _, st => st
  | n + 1, i, st =>
    rowsLoop a b blo bhi n (i + 1)
      (rowLoop a b i blo st.1 (bhi - blo) blo (zeroMap, st.2.1, st.2.2.1, st.2.2.2))

/-- difflib's backward extension loop (`while besti > alo and bestj > blo
and a[besti-1] == b[bestj-1]`), fuelled by the initial `besti`. -/
def extBack (a b : Chars) (alo blo : Nat) : Nat → Nat × Nat × Nat → Nat × Nat × Nat
  | 0, st => st
  | f + 1, st =>
    if alo < st.1 ∧ blo < st.2.1 ∧ matchAt a b (st.1 - 1) (st.2.1 - 1) = true then
      extBack a b alo blo f (st.1 - 1, st.2.1 - 1, st.2.2 + 1)
    else st

/-- difflib's forward extension loop, fuelled by `ahi`. -/
def extFwd (a b : Chars) (ahi bhi : Nat) : Nat → Nat × Nat × Nat → Nat × Nat × Nat
  | 0, st => st
  | f + 1, st =>
    if st.1 + st.2.2 < ahi ∧ st.2.1 + st.2.2 < bhi ∧
        matchAt a b (st.1 + st.2.2) (st.2.1 + st.2.2) = true then
      extFwd a b ahi bhi f (st.1, st.2.1, st.2.2 + 1)
    else st

/-- difflib's `find_longest_match` on the windows `a[alo:ahi]`,
`b[blo:bhi]`, returning `(besti, bestj, bestsize)`. -/
def find_longest_match (a b : Chars) (alo ahi blo bhi : Nat) : Nat × Nat × Nat :=
  let st := rowsLoop a b blo bhi (ahi - alo) alo (zeroMap, alo, blo, 0)
  extFwd a b ahi bhi ahi (extBack a b alo blo st.2.1 (st.2.1, st.2.2.1, st.2.2.2))

/-- Total size of difflib's matching blocks on the given windows (the `M`
of `ratio = 2M/T`), mirroring `get_matching_blocks`'s recursive division
around each longest match.  Structural fuel replaces the recursion on
shrinking windows; `matchesTotal` supplies enough fuel for the whole
strings. -/
def matchesTotalAux (a b : Chars) : Nat → Nat → Nat → Nat → Nat → Nat
  | 0, _, _, _, _ => 0
  | fuel + 1, alo, ahi, blo, bhi =>
    let m := find_longest_match a b alo ahi blo bhi
    if m.2.2 = 0 then 0
    else
      m.2.2 +
        (if alo < m.1 ∧ blo < m.2.1 then matchesTotalAux a b fuel alo m.1 blo m.2.1 else 0) +
        (if m.1 + m.2.2 < ahi ∧ m.2.1 + m.2.2 < bhi then
          matchesTotalAux a b fuel (m.1 + m.2.2) ahi (m.2.1 + m.2.2) bhi
        else 0)

/-- Total matched size `M` for the full strings. -/
def matchesTotal (a b : Chars) : Nat := matchesTotalAux a b (a.length + 1) 0 a.length 0 b.length

/-- difflib's `ratio()`: `2M / (len(a)+len(b))`, and 1 when both strings
are empty. -/
def similarity (a b : Chars) : ℚ :=
  if a.length + b.length = 0 then 1
  else (2 * (matchesTotal a b : ℚ)) / ((a.length : ℚ) + (b.length : ℚ))

/-- Lowercasing, as Python's `str.lower()` on ASCII input. -/
def lowerChars (l : Chars) : Chars := l.map Char.toLower

/-- The scorer as used by every resolver call site:
`SequenceMatcher(None, a.lower(), b.lower()).ratio()`. -/
def strSim (a b : Chars) : ℚ := similarity (lowerChars a) (lowerChars b)


/-! ## Python's `max(iterable, key=..., default=None)`
Returns the first element attaining the maximum key (later elements replace
the running best only on a strictly larger key), or `none` on an empty
iterable. -/

/-- Python `max` with a `key` function and `default=None`. -/
def pyMaxBy {α : Type} (key : α → ℚ) : List α → Option α
  | [] => none
  | x :: xs => some (xs.foldl (fun best y => if key best < key y then y else best) x)

/-! ## EpisodeAudioLocator: `find_episode_in_rss` -/

/-- An RSS enclosure, per the spec's Feed Provider interface (§6):
`{href}`. -/
structure Enclosure where
  href : Chars
deriving DecidableEq

/-- A feed entry, per the spec's Feed Provider interface (§6):
`{title, enclosures}`. -/
structure FeedEntry where
  title : Chars
  enclosures : List Enclosure
deriving DecidableEq

/-- The score the locator computes for one feed entry:
`SequenceMatcher(None, entry_title.lower(), episode_title.lower()).ratio()`. -/
def entryScore (episode_title : Chars) (e : FeedEntry) : ℚ :=
  strSim e.title episode_title

/-- `find_episode_in_rss(rss_feed_url, episode_title)` with the parsed feed
entries passed explicitly (the Feed Provider call is the collaborator).
Mirrors the source: take the max-scoring entry (`max` with `default=None`),
then require a nonempty enclosure list and a score strictly above 0.8,
else raise (typed `EpisodeNotFoundError` by §7). -/
def find_episode_in_rss (entries : List FeedEntry) (episode_title : Chars) :
    Except PErr Chars :=
  match pyMaxBy (entryScore episode_title) entries with
  | none => .error .episodeNotFound
  | some best =>
    match best.enclosures with
    | [] => .error .episodeNotFound
    | enc :: _ =>
      if (4 : ℚ)/5 < entryScore episode_title best then .ok enc.href
      else .error .episodeNotFound

/-! ## ShowFeedResolver: `search_itunes_podcast` -/

/-- One iTunes directory result: `collectionName` may be absent (the source
reads it with `r.get("collectionName", "")`), and `feedUrl` may be absent
(the source tests `"feedUrl" in best_match`). -/
structure ITunesResult where
  collectionName : Option Chars
  feedUrl : Option Chars
deriving DecidableEq

/-- The score the resolver computes for one directory result. -/
def resultScore (show_name : Chars) (r : ITunesResult) : ℚ :=
  strSim (r.collectionName.getD []) show_name

/-- `search_itunes_podcast(show_name)` with the directory response passed
explicitly.  The source checks `data["resultCount"] == 0`; the directory's
`resultCount` is modelled as the length of its result list.  Both failure
raises are typed `FeedNotFoundError` by §7. -/
def search_itunes_podcast (results : List ITunesResult) (show_name : Chars) :
    Except PErr Chars :=
  if results.length = 0 then .error .feedNotFound
  else
    match pyMaxBy (resultScore show_name) results with
    | some best =>
      match best.feedUrl with
      | some u => .ok u
      | none => .error .feedNotFound
    | none => .error .feedNotFound

/-! ## EpisodeSearchClient: `search_spotify_episodes`, `extract_episode_id` -/

/-- A simplified episode object from the search response; only its `id` is
read by the source.  A `none` in the response list models Spotify's `null`
placeholders for unavailable episodes. -/
structure SimplifiedEp where
  id : Chars
deriving DecidableEq

/-- A full episode object from the batch `episodes` endpoint. -/
structure FullEp where
  id : Chars
deriving DecidableEq

/-- The Spotify client collaborator: `searchItems query limit` is
`sp.search(...)["episodes"]["items"]`, and `episodeById` is the per-id
lookup behind the batch `sp.episodes(ids)` call, which answers `none` for
an unavailable id. -/
structure SpotifyClient where
  searchItems : Chars → Nat → List (Option SimplifiedEp)
  episodeById : Chars → Option FullEp

/-- The batch `sp.episodes(ids)["episodes"]` call: one (possibly null)
full object per requested id, in request order. -/
def sp_episodes (sp : SpotifyClient) (ids : List Chars) : List (Option FullEp) :=
  ids.map sp.episodeById

/-- `search_spotify_episodes(query, sp, limit=10)`.  Mirrors the source:
empty query short-circuits to `[]`; null simplified entries are dropped
before collecting ids; the returned value is the raw batch response. -/
def search_spotify_episodes (sp : SpotifyClient) (query : Chars) (limit : Nat) :
    List (Option FullEp) :=
  if query = [] then []
  else
    let items := sp.searchItems query limit
    if items = [] then []
    else
      let ids := (items.filterMap (fun o => o)).map (fun e => e.id)
      if ids = [] then [] else sp_episodes sp ids

/-- The character class of the regex `[a-zA-Z0-9]`. -/
def isAlnumC (c : Char) : Bool := c.isAlpha || c.isDigit

/-- The literal `episode/` searched for by the regex. -/
def epsLit : Chars := [ 'e', 'p', 'i', 's', 'o', 'd', 'e', '/' ]

/-- Attempt to match the regex `episode/([a-zA-Z0-9]+)` anchored at the
start of `s`: the literal followed by a maximal (greedy) nonempty
alphanumeric run. -/
def matchEpHere (s : Chars) : Option Chars :=
  if s.take 8 = epsLit then
    let run := (s.drop 8).takeWhile isAlnumC
    if run = [] then none else some run
  else none

/-- `re.search` for `episode/([a-zA-Z0-9]+)`: try each position left to
right and return the first anchored match's group. -/
def reSearchEp : Chars → Option Chars
  | [] => none
  | c :: rest =>
    match matchEpHere (c :: rest) with
    | some r => some r
    | none => reSearchEp rest

/-- `extract_episode_id(spotify_url)`: the regex group on a match, else
`ValueError("Invalid Spotify episode URL.")`, typed
`InvalidReferenceError` by §7. -/
def extract_episode_id (url : Chars) : Except PErr Chars :=
  match reSearchEp url with
  | some r => .ok r
  | none => .error .invalidReference

/-- The proposition that a string contains `episode/` followed by at least
one alphanumeric character. -/
def hasEpRef (l : Chars) : Prop :=
  ∃ u c v, l = u ++ epsLit ++ c :: v ∧ isAlnumC c = true

/-! ## Summarizer: `summarize_text` -/

/-- Python's `text.split("\n\n")`: non-overlapping leftmost splitting on
the two-newline separator, keeping empty pieces. -/
def splitParas : Chars → List Chars
  | [] => [[]]
  | '\n' :: '\n' :: rest => [] :: splitParas rest
  | c :: rest =>
    match splitParas rest with
    | [] => [[c]]
    | h :: t => (c :: h) :: t

/-- Python's `"\n\n".join(pieces)`. -/
def joinParas : List Chars → Chars
  | [] => []
  | [x] => x
  | x :: y :: t => x ++ '\n' :: '\n' :: joinParas (y :: t)

/-- Python's `not chunk.strip()`: the chunk is empty or all whitespace. -/
def isBlank (c : Chars) : Bool := c.all Char.isWhitespace

/-- Token counter behind `len(s.split())`: number of maximal runs of
non-whitespace characters.  The Boolean argument records whether the scan
is inside a run. -/
def countTokAux : Chars → Bool → Nat
  | [], _ => 0
  | c :: rest, inTok =>
    if c.isWhitespace then countTokAux rest false
    else (if inTok then 0 else 1) + countTokAux rest true

/-- `len(s.split())`: whitespace-delimited token count. -/
def countTokensL (s : Chars) : Nat := countTokAux s false

/-- The per-chunk loop of `summarize_text`: skip blank chunks, call the
Summarization Provider with bounds `[30,150]`, skip chunks whose call
fails (`none`), keep successful summaries in order. -/
def chunkLoop (provider : Chars → Nat → Nat → Option Chars) :
    List Chars → List Chars
  | [] => []
  | c :: rest =>
    if isBlank c then chunkLoop provider rest
    else
      match provider c 30 150 with
      | some s => s :: chunkLoop provider rest
      | none => chunkLoop provider rest

/-- `summarize_text(text, hf_client)` with the Summarization Provider
passed explicitly (`provider text min_length max_length`, `none` modelling
a raised exception).  Returns the produced summary together with the
number of final-reduction provider calls made, so that call counts can be
stated.  Mirrors the source: chunk on blank lines, summarize each chunk
with bounds `[30,150]`, join with blank lines, and when the joined result
has more than 400 whitespace tokens make one reduction call with bounds
`[50,250]`, falling back to the joined result if that call fails. -/
def summarize_text (provider : Chars → Nat → Nat → Option Chars) (text : Chars) :
    Chars × Nat :=
  let combined := joinParas (chunkLoop provider (splitParas text))
  if 400 < countTokensL combined then
    match provider combined 50 250 with
    | some s => (s, 1)
    | none => (combined, 1)
  else (combined, 0)

/-- The blank-line-joined concatenation of the summaries of the successful
non-blank chunks, in input order (the `combined_summary` of the source,
written with `filter`/`filterMap`). -/
def combinedSummary (provider : Chars → Nat → Nat → Option Chars) (text : Chars) :
    Chars :=
  joinParas (((splitParas text).filter (fun c => ! isBlank c)).filterMap
    (fun c => provider c 30 150))

/-! ## TranscriptionPipeline: `get_transcript_from_url` -/

/-- Episode metadata returned by `get_spotify_episode_info`. -/
structure EpisodeInfo where
  episode_title : String
  show_name : String
  show_id : String
deriving DecidableEq

/-- One observable action of a pipeline run: a Status Sink report
(message and progress fraction — every `update_status` call in the source
passes both), the creation of the temporary audio file, or its deletion. -/
inductive Act where
  | status : String → ℚ → Act
  | create : Act
  | delete : Act
deriving DecidableEq

/-- Outcome of a pipeline run: everything observable (in order) plus the
returned value or propagated error. -/
structure RunResult where
  trace : List Act
  outcome : Except PErr (String × EpisodeInfo)

/-- The effects of one run's collaborator calls: results of the four
resolution stages, the download sub-progress values delivered before the
download finishes or fails, the download result, and the transcription
result.  `download_audio` reports `min(1.0, dl/total)` values in `[0,1]`;
`transcribe_audio_hf` reports `1.0` exactly once, on success. -/
structure PipelineEnv where
  episodeId : Except PErr String
  episodeInfo : Except PErr EpisodeInfo
  feedUrl : Except PErr String
  audioUrl : Except PErr String
  downloadSub : List ℚ
  downloadOk : Except PErr Unit
  transcript : Except PErr String

/-- The fraction reported for download sub-progress `p`:
`0.4 + p * 0.3` in the source. -/
def dlFrac (p : ℚ) : ℚ := 2/5 + p * (3/10)

/-- The fraction reported for transcription sub-progress `p`:
`0.7 + p * 0.3` in the source. -/
def trFrac (p : ℚ) : ℚ := 7/10 + p * (3/10)

/-- `get_transcript_from_url(spotify_url, hf_client, status_callback,
progress_callback)`: the orchestrator, with each collaborator call's
effect supplied by `env`.  Reproduces the source's status reports (message
and fraction) in order, the temporary-file creation after the audio URL is
located, and the `try/finally` that deletes the file and reports cleanup
at fraction 1.0 on every exit from the download/transcription block. -/
def get_transcript_from_url (env : PipelineEnv) : RunResult :=
  let e1 := Act.status "Connecting to Spotify..." (1/20)
  let e2 := Act.status "Extracting episode information..." (1/10)
  match env.episodeId with
  | .error e => ⟨[e1, e2], .error e⟩
  | .ok _ =>
  match env.episodeInfo with
  | .error e => ⟨[e1, e2], .error e⟩
  | .ok info =>
  let e3 := Act.status "Finding podcast RSS feed..." (1/5)
  match env.feedUrl with
  | .error e => ⟨[e1, e2, e3], .error e⟩
  | .ok _ =>
  let e4 := Act.status "Locating audio file in RSS feed..." (3/10)
  match env.audioUrl with
  | .error e => ⟨[e1, e2, e3, e4], .error e⟩
  | .ok _ =>
  let e5 := Act.status "Downloading audio file..." (2/5)
  let dls := env.downloadSub.map (fun p => Act.status "Downloading..." (dlFrac p))
  let head := [e1, e2, e3, e4, Act.create, e5] ++ dls
  let fin := [Act.delete, Act.status "Cleaning up temporary files." 1]
  match env.downloadOk with
  | .error e => ⟨head ++ fin, .error e⟩
  | .ok _ =>
  let e6 := Act.status "Transcribing audio (this may take a while)..." (7/10)
  match env.transcript with
  | .error e => ⟨head ++ [e6] ++ fin, .error e⟩
  | .ok text =>
    ⟨head ++ [e6, Act.status "Transcribing..." (trFrac 1),
        Act.status "Transcription complete!" 1] ++ fin,
      .ok (text, info)⟩

/-! ## Invariants of the matcher loops, used by the similarity proofs -/

/-- Invariant of the running best block `(besti, bestj, bestsize)` of
`find_longest_match` on windows `[alo,ahi) × [blo,bhi)`: a zero-size best
is still the initial `(alo, blo)`, and a nonzero-size best is a genuine
in-window, in-range block of equal characters. -/
def BInv (a b : Chars) (alo ahi blo bhi : Nat) (t : Nat × Nat × Nat) : Prop :=
  (t.2.2 = 0 → t.1 = alo ∧ t.2.1 = blo) ∧
  (t.2.2 ≠ 0 →
    alo ≤ t.1 ∧ t.1 + t.2.2 ≤ ahi ∧ blo ≤ t.2.1 ∧ t.2.1 + t.2.2 ≤ bhi ∧
    t.1 + t.2.2 ≤ a.length ∧ t.2.1 + t.2.2 ≤ b.length ∧
    ∀ d, d < t.2.2 → a.getD (t.1 + d) '?' = b.getD (t.2.1 + d) '?')

/-- Invariant of a j2len map entering row `i`: each nonzero entry `f j` is
the length of a run of equal characters ending at `(i-1, j)`, bounded by
the distances to the window edges. -/
def J2Inv (a b : Chars) (alo blo bhi i : Nat) (f : Nat → Nat) : Prop :=
  ∀ j, f j ≠ 0 →
    blo ≤ j ∧ j < bhi ∧ f j ≤ j + 1 - blo ∧ f j ≤ i - alo ∧ f j ≤ j + 1 ∧ f j ≤ i ∧
    ∀ d, d < f j → matchAt a b (i - 1 - d) (j - d) = true

/-! ## Concrete instances used when settling the claims -/

/-- Episode metadata for concrete runs. -/
def cexInfo : EpisodeInfo := ⟨"t", "s", "i"⟩

/-- A run whose collaborators all succeed and whose download reports one
sub-progress value 0.5. -/
def envAllOk : PipelineEnv :=
  ⟨.ok "e", .ok cexInfo, .ok "f", .ok "a", [1/2], .ok (), .ok "hello"⟩

/-- A run whose download fails immediately (no sub-progress delivered). -/
def envDlFail : PipelineEnv :=
  ⟨.ok "e", .ok cexInfo, .ok "f", .ok "a", [], .error .downloadError, .ok "x"⟩

/-- The space character (written by code point to keep character literals
simple). -/
def spChar : Char := Char.ofNat 32

/-- A string of `n` single-letter tokens, each followed by a space. -/
def tokList : Nat → Chars
  | 0 => []
  | n + 1 => 'w' :: spChar :: tokList n

/-- A 401-token string: long enough to trigger the final reduction pass. -/
def longToks : Chars := tokList 401

/-- A provider whose chunk-stage calls (min length 30) return a 401-token
summary and whose reduction call returns a one-character summary. -/
def provLong : Chars → Nat → Nat → Option Chars :=
  fun _ mn _ => if mn = 30 then some longToks else some [ 'r' ]

/-- First example paragraph. -/
def paraOne : Chars := "one".data

/-- Second example paragraph. -/
def paraTwo : Chars := "two".data

/-- Third example paragraph. -/
def paraThree : Chars := "three".data

/-- A provider that fails on the second example paragraph only. -/
def provSkipTwo : Chars → Nat → Nat → Option Chars :=
  fun c _ _ =>
    if c = paraOne then some "s1".data
    else if c = paraTwo then none
    else if c = paraThree then some "s3".data
    else none

/-- Three paragraphs separated by blank lines. -/
def threeParas : Chars := "one\n\ntwo\n\nthree".data

/-- The spec's example directory result `{"The Daily","feedA"}`. -/
def theDaily : ITunesResult := ⟨some "The Daily".data, some "feedA".data⟩

/-- The spec's example directory result `{"Daily Show","feedB"}`. -/
def dailyShow : ITunesResult := ⟨some "Daily Show".data, some "feedB".data⟩

/-- An enclosure with a known href. -/
def encU : Enclosure := ⟨"u".data⟩

/-- A feed entry whose title scores exactly 0.8 against `"abc"`. -/
def entryAB : FeedEntry := ⟨"ab".data, [encU]⟩

/-- A feed entry whose title scores 1 against `"abc"`. -/
def entryABC : FeedEntry := ⟨"abc".data, [encU]⟩

/-- A Spotify client whose search returns one non-null simplified item but
whose batch episode lookup answers null. -/
def spCex : SpotifyClient := ⟨fun _ _ => [some ⟨"i1".data⟩], fun _ => none⟩

/-- A Spotify client whose search returns one non-null and one null item
and whose batch lookup succeeds. -/
def spGood : SpotifyClient :=
  ⟨fun _ _ => [some ⟨"i1".data⟩, none], fun i => some ⟨i⟩⟩


/-! ## Lemmas about Python's `max(key=...)` -/

theorem foldlMax_mem {α : Type} (key : α → ℚ) (xs : List α) (cur : α) :
    xs.foldl (fun best y => if key best < key y then y else best) cur = cur ∨
      xs.foldl (fun best y => if key best < key y then y else best) cur ∈ xs := by
  induction xs generalizing cur with
  | nil => exact Or.inl rfl
  | cons x xs ih =>
    simp only [List.foldl_cons]
    rcases ih (if key cur < key x then x else cur) with h | h
    · rw [h]
      by_cases hc : key cur < key x
      · simp [hc]
      · simp [hc]
    · exact Or.inr (List.mem_cons_of_mem _ h)

theorem foldlMax_ge {α : Type} (key : α → ℚ) (xs : List α) (cur : α) :
    key cur ≤ key (xs.foldl (fun best y => if key best < key y then y else best) cur) ∧
      ∀ y ∈ xs,
        key y ≤ key (xs.foldl (fun best y => if key best < key y then y else best) cur) := by
  induction xs generalizing cur with
  | nil => exact ⟨le_refl _, by simp⟩
  | cons x xs ih =>
    simp only [List.foldl_cons]
    obtain ⟨h1, h2⟩ := ih (if key cur < key x then x else cur)
    constructor
    · refine le_trans ?_ h1
      by_cases hc : key cur < key x
      · simp only [hc, if_true]
        exact le_of_lt hc
      · simp [hc]
    · intro y hy
      rcases List.mem_cons.mp hy with rfl | hy
      · refine le_trans ?_ h1
        by_cases hc : key cur < key y
        · simp [hc]
        · simp only [hc, if_false]
          exact le_of_not_lt hc
      · exact h2 y hy

theorem pyMaxBy_mem {α : Type} (key : α → ℚ) (l : List α) (m : α)
    (h : pyMaxBy key l = some m) : m ∈ l := by
  cases l with
  | nil => simp [pyMaxBy] at h
  | cons x xs =>
    simp only [pyMaxBy, Option.some_inj] at h
    rcases foldlMax_mem key xs x with h' | h'
    · rw [h'] at h
      rw [← h]
      exact List.mem_cons_self _ _
    · rw [← h]
      exact List.mem_cons_of_mem _ h'

theorem pyMaxBy_max {α : Type} (key : α → ℚ) (l : List α) (m : α)
    (h : pyMaxBy key l = some m) : ∀ y ∈ l, key y ≤ key m := by
  cases l with
  | nil => simp [pyMaxBy] at h
  | cons x xs =>
    simp only [pyMaxBy, Option.some_inj] at h
    obtain ⟨h1, h2⟩ := foldlMax_ge key xs x
    intro y hy
    rcases List.mem_cons.mp hy with rfl | hy
    · rw [← h]; exact h1
    · rw [← h]; exact h2 y hy

theorem foldlMax_of_best {α : Type} (key : α → ℚ) (b : α) (xs : List α)
    (hstrict : ∀ e ∈ xs, e ≠ b → key e < key b) :
    xs.foldl (fun best y => if key best < key y then y else best) b = b := by
  induction xs with
  | nil => rfl
  | cons x xs ih =>
    simp only [List.foldl_cons]
    have hx : ¬ key b < key x := by
      by_cases hxb : x = b
      · subst hxb; exact lt_irrefl _
      · exact not_lt_of_lt (hstrict x (List.mem_cons_self _ _) hxb)
    simp only [hx, if_false]
    exact ih (fun e he hne => hstrict e (List.mem_cons_of_mem _ he) hne)

theorem foldlMax_reaches_best {α : Type} (key : α → ℚ) (b : α) :
    ∀ (xs : List α) (cur : α), key cur < key b → b ∈ xs →
      (∀ e ∈ xs, e ≠ b → key e < key b) →
      xs.foldl (fun best y => if key best < key y then y else best) cur = b := by
  intro xs
  induction xs with
  | nil => intro cur _ hb _; simp at hb
  | cons x xs ih =>
    intro cur hcur hb hstrict
    simp only [List.foldl_cons]
    by_cases hxb : x = b
    · subst hxb
      simp only [hcur, if_true]
      exact foldlMax_of_best key x xs
        (fun e he hne => hstrict e (List.mem_cons_of_mem _ he) hne)
    · have hxlt : key x < key b := hstrict x (List.mem_cons_self _ _) hxb
      have hb' : b ∈ xs := by
        rcases List.mem_cons.mp hb with rfl | h'
        · exact absurd rfl hxb
        · exact h'
      have hnext : key (if key cur < key x then x else cur) < key b := by
        by_cases hc : key cur < key x
        · simpa [hc] using hxlt
        · simpa [hc] using hcur
      exact ih _ hnext hb' (fun e he hne => hstrict e (List.mem_cons_of_mem _ he) hne)

theorem pyMaxBy_of_strict_max {α : Type} (key : α → ℚ) (l : List α) (b : α)
    (hb : b ∈ l) (hstrict : ∀ e ∈ l, e ≠ b → key e < key b) :
    pyMaxBy key l = some b := by
  cases l with
  | nil => simp at hb
  | cons x xs =>
    simp only [pyMaxBy, Option.some_inj]
    by_cases hxb : x = b
    · subst hxb
      exact foldlMax_of_best key x xs
        (fun e he hne => hstrict e (List.mem_cons_of_mem _ he) hne)
    · have hxlt : key x < key b := hstrict x (List.mem_cons_self _ _) hxb
      have hb' : b ∈ xs := by
        rcases List.mem_cons.mp hb with rfl | h'
        · exact absurd rfl hxb
        · exact h'
      exact foldlMax_reaches_best key b xs x hxlt hb'
        (fun e he hne => hstrict e (List.mem_cons_of_mem _ he) hne)

/-! ## Invariant lemmas for the matcher -/

theorem matchAt_true {a b : Chars} {i j : Nat} (h : matchAt a b i j = true) :
    i < a.length ∧ j < b.length ∧ a.getD i '?' = b.getD j '?' := by
  simpa [matchAt, Bool.and_eq_true, decide_eq_true_eq, and_assoc] using h

theorem colK_facts (a b : Chars) (alo blo bhi i j : Nat) (old : Nat → Nat)
    (hi1 : alo ≤ i) (hj1 : blo ≤ j)
    (hold : J2Inv a b alo blo bhi i old)
    (hm : matchAt a b i j = true) :
    colK blo old j ≤ j + 1 - blo ∧ colK blo old j ≤ i + 1 - alo ∧
      colK blo old j ≤ j + 1 ∧ colK blo old j ≤ i + 1 ∧
      ∀ d, d < colK blo old j → matchAt a b (i - d) (j - d) = true := by
  unfold colK
  by_cases hbj : blo < j
  · simp only [hbj, if_true]
    by_cases ho : old (j - 1) = 0
    · rw [ho]
      refine ⟨by omega, by omega, by omega, by omega, ?_⟩
      intro d hd
      interval_cases d
      simpa using hm
    · obtain ⟨h1, h2, h3, h4, h5, h6, hrun⟩ := hold (j - 1) ho
      refine ⟨by omega, by omega, by omega, by omega, ?_⟩
      intro d hd
      match d, hd with
      | 0, _ => simpa using hm
      | e + 1, hd =>
        have he : e < old (j - 1) := by omega
        have := hrun e he
        have hi' : i - 1 - e = i - (e + 1) := by omega
        have hj' : j - 1 - e = j - (e + 1) := by omega
        rwa [hi', hj'] at this
  · simp only [hbj, if_false]
    refine ⟨by omega, by omega, by omega, by omega, ?_⟩
    intro d hd
    interval_cases d
    simpa using hm

theorem colStep_inv (a b : Chars) (alo ahi blo bhi i j : Nat) (old : Nat → Nat)
    (st : (Nat → Nat) × Nat × Nat × Nat)
    (hi1 : alo ≤ i) (hi2 : i < ahi) (hj1 : blo ≤ j) (hj2 : j < bhi)
    (hold : J2Inv a b alo blo bhi i old)
    (hnj : J2Inv a b alo blo bhi (i + 1) st.1)
    (hb : BInv a b alo ahi blo bhi st.2) :
    J2Inv a b alo blo bhi (i + 1) (colStep a b i blo old st j).1 ∧
      BInv a b alo ahi blo bhi (colStep a b i blo old st j).2 := by
  unfold colStep
  by_cases hm : matchAt a b i j = true
  · obtain ⟨hia, hjb, hcheq⟩ := matchAt_true hm
    obtain ⟨hk1, hk2, hk3, hk4, hkrun⟩ := colK_facts a b alo blo bhi i j old hi1 hj1 hold hm
    have hknz : colK blo old j ≠ 0 := by unfold colK; omega
    have hnj2 : J2Inv a b alo blo bhi (i + 1)
        (fun x => if x = j then colK blo old j else st.1 x) := by
      intro x hx
      by_cases hxj : x = j
      · subst hxj
        simp only [if_pos rfl] at hx ⊢
        refine ⟨hj1, hj2, hk1, hk2, hk3, hk4, ?_⟩
        intro d hd
        have := hkrun d hd
        have hi' : i - d = i + 1 - 1 - d := by omega
        rwa [hi'] at this
      · simp only [hxj, if_false] at hx ⊢
        exact hnj x hx
    rw [if_pos hm]
    by_cases hlt : st.2.2.2 < colK blo old j
    · rw [if_pos hlt]
      refine ⟨hnj2, ?_, ?_⟩
      · intro h0
        exact absurd h0 hknz
      · intro _
        have hkd : 1 ≤ colK blo old j := by unfold colK; omega
        dsimp only
        refine ⟨by omega, by omega, by omega, by omega, by omega, by omega, ?_⟩
        intro d hd
        have he : colK blo old j - 1 - d < colK blo old j := by omega
        have := hkrun (colK blo old j - 1 - d) he
        obtain ⟨_, _, hch⟩ := matchAt_true this
        have hiidx : i - (colK blo old j - 1 - d) = i + 1 - colK blo old j + d := by omega
        have hjidx : j - (colK blo old j - 1 - d) = j + 1 - colK blo old j + d := by omega
        rwa [hiidx, hjidx] at hch
    · rw [if_neg hlt]
      exact ⟨hnj2, hb⟩
  · simp only [Bool.not_eq_true] at hm
    rw [if_neg (by simp [hm])]
    exact ⟨hnj, hb⟩

theorem rowLoop_inv (a b : Chars) (alo ahi blo bhi i : Nat) (old : Nat → Nat)
    (hi1 : alo ≤ i) (hi2 : i < ahi) (hold : J2Inv a b alo blo bhi i old) :
    ∀ (m j : Nat) (st : (Nat → Nat) × Nat × Nat × Nat),
      blo ≤ j → j + m ≤ bhi →
      J2Inv a b alo blo bhi (i + 1) st.1 → BInv a b alo ahi blo bhi st.2 →
      J2Inv a b alo blo bhi (i + 1) (rowLoop a b i blo old m j st).1 ∧
        BInv a b alo ahi blo bhi (rowLoop a b i blo old m j st).2 := by
  intro m
  induction m with
  | zero => intro j st _ _ h1 h2; exact ⟨h1, h2⟩
  | succ m ih =>
    intro j st hj1 hj2 h1 h2
    have hjb : j < bhi := by omega
    obtain ⟨h1', h2'⟩ :=
      colStep_inv a b alo ahi blo bhi i j old st hi1 hi2 hj1 hjb hold h1 h2
    exact ih (j + 1) (colStep a b i blo old st j) (by omega) (by omega) h1' h2'

theorem rowsLoop_inv (a b : Chars) (alo ahi blo bhi : Nat) :
    ∀ (n i : Nat) (st : (Nat → Nat) × Nat × Nat × Nat),
      alo ≤ i → i + n = ahi →
      J2Inv a b alo blo bhi i st.1 → BInv a b alo ahi blo bhi st.2 →
      BInv a b alo ahi blo bhi (rowsLoop a b blo bhi n i st).2 := by
  intro n
  induction n with
  | zero => intro i st _ _ _ h2; exact h2
  | succ n ih =>
    intro i st hi1 hi2 h1 h2
    have hzero : J2Inv a b alo blo bhi (i + 1) zeroMap := by
      intro j hj
      exact absurd rfl hj
    show BInv a b alo ahi blo bhi
      (rowsLoop a b blo bhi n (i + 1)
        (rowLoop a b i blo st.1 (bhi - blo) blo
          (zeroMap, st.2.1, st.2.2.1, st.2.2.2))).2
    have hst2 : BInv a b alo ahi blo bhi (zeroMap, st.2.1, st.2.2.1, st.2.2.2).2 := h2
    by_cases hwin : blo ≤ bhi
    · obtain ⟨h1', h2'⟩ := rowLoop_inv a b alo ahi blo bhi i st.1 hi1 (by omega) h1
        (bhi - blo) blo (zeroMap, st.2.1, st.2.2.1, st.2.2.2)
        (le_refl _) (by omega) hzero hst2
      exact ih (i + 1) _ (by omega) (by omega) h1' h2'
    · have hzero' : bhi - blo = 0 := by omega
      rw [hzero']
      exact ih (i + 1) _ (by omega) (by omega) hzero hst2

theorem extBack_BInv (a b : Chars) (alo ahi blo bhi : Nat) :
    ∀ (f : Nat) (st : Nat × Nat × Nat), BInv a b alo ahi blo bhi st →
      BInv a b alo ahi blo bhi (extBack a b alo blo f st) := by
  intro f
  induction f with
  | zero => intro st h; exact h
  | succ f ih =>
    intro st h
    unfold extBack
    by_cases hg : alo < st.1 ∧ blo < st.2.1 ∧ matchAt a b (st.1 - 1) (st.2.1 - 1) = true
    · rw [if_pos hg]
      obtain ⟨hg1, hg2, hg3⟩ := hg
      obtain ⟨hma, hmb, hmc⟩ := matchAt_true hg3
      have hs : st.2.2 ≠ 0 := by
        intro h0
        obtain ⟨he1, _⟩ := h.1 h0
        omega
      obtain ⟨hb1, hb2, hb3, hb4, hb5, hb6, hrun⟩ := h.2 hs
      refine ih _ ⟨?_, ?_⟩
      · intro h0
        simp only at h0
        omega
      · intro _
        dsimp only
        refine ⟨by omega, by omega, by omega, by omega, by omega, by omega, ?_⟩
        intro d hd
        match d, hd with
        | 0, _ =>
          have hi' : st.1 - 1 + 0 = st.1 - 1 := by omega
          have hj' : st.2.1 - 1 + 0 = st.2.1 - 1 := by omega
          rw [hi', hj']
          exact hmc
        | e + 1, hd =>
          have hi' : st.1 - 1 + (e + 1) = st.1 + e := by omega
          have hj' : st.2.1 - 1 + (e + 1) = st.2.1 + e := by omega
          rw [hi', hj']
          exact hrun e (by omega)
    · rw [if_neg hg]
      exact h

theorem extFwd_BInv (a b : Chars) (alo ahi blo bhi : Nat) :
    ∀ (f : Nat) (st : Nat × Nat × Nat), BInv a b alo ahi blo bhi st →
      BInv a b alo ahi blo bhi (extFwd a b ahi bhi f st) := by
  intro f
  induction f with
  | zero => intro st h; exact h
  | succ f ih =>
    intro st h
    unfold extFwd
    by_cases hg : st.1 + st.2.2 < ahi ∧ st.2.1 + st.2.2 < bhi ∧
        matchAt a b (st.1 + st.2.2) (st.2.1 + st.2.2) = true
    · rw [if_pos hg]
      obtain ⟨hg1, hg2, hg3⟩ := hg
      obtain ⟨hma, hmb, hmc⟩ := matchAt_true hg3
      refine ih _ ⟨?_, ?_⟩
      · intro h0
        simp only at h0
        omega
      · intro _
        dsimp only
        by_cases hs : st.2.2 = 0
        · obtain ⟨he1, he2⟩ := h.1 hs
          subst he1
          subst he2
          rw [hs] at hg1 hg2 hmc hma hmb ⊢
          refine ⟨by omega, by omega, by omega, by omega, by omega, by omega, ?_⟩
          intro d hd
          have hd0 : d = 0 := by omega
          subst hd0
          simpa using hmc
        · obtain ⟨hb1, hb2, hb3, hb4, hb5, hb6, hrun⟩ := h.2 hs
          refine ⟨by omega, by omega, by omega, by omega, by omega, by omega, ?_⟩
          intro d hd
          by_cases hds : d < st.2.2
          · exact hrun d hds
          · have hde : d = st.2.2 := by omega
            subst hde
            exact hmc
    · rw [if_neg hg]
      exact h

theorem flm_BInv (a b : Chars) (alo ahi blo bhi : Nat) :
    BInv a b alo ahi blo bhi (find_longest_match a b alo ahi blo bhi) := by
  unfold find_longest_match
  have hinit : BInv a b alo ahi blo bhi
      (((fun _ => (0 : Nat)), alo, blo, 0) :
        (Nat → Nat) × Nat × Nat × Nat).2 := by
    constructor
    · intro _; exact ⟨rfl, rfl⟩
    · intro h0; exact absurd rfl h0
  have hzero : J2Inv a b alo blo bhi alo (fun _ => (0 : Nat)) := by
    intro j hj
    exact absurd rfl hj
  have hrows : BInv a b alo ahi blo bhi
      (rowsLoop a b blo bhi (ahi - alo) alo ((fun _ => 0), alo, blo, 0)).2 := by
    by_cases halo : alo ≤ ahi
    · exact rowsLoop_inv a b alo ahi blo bhi (ahi - alo) alo _ (le_refl _) (by omega)
        hzero hinit
    · have h0 : ahi - alo = 0 := by omega
      rw [h0]
      exact hinit
  have hback := extBack_BInv a b alo ahi blo bhi
    (rowsLoop a b blo bhi (ahi - alo) alo ((fun _ => 0), alo, blo, 0)).2.1
    ((rowsLoop a b blo bhi (ahi - alo) alo ((fun _ => 0), alo, blo, 0)).2.1,
      (rowsLoop a b blo bhi (ahi - alo) alo ((fun _ => 0), alo, blo, 0)).2.2.1,
      (rowsLoop a b blo bhi (ahi - alo) alo ((fun _ => 0), alo, blo, 0)).2.2.2)
    (by
      have : ((rowsLoop a b blo bhi (ahi - alo) alo ((fun _ => 0), alo, blo, 0)).2.1,
          (rowsLoop a b blo bhi (ahi - alo) alo ((fun _ => 0), alo, blo, 0)).2.2.1,
          (rowsLoop a b blo bhi (ahi - alo) alo ((fun _ => 0), alo, blo, 0)).2.2.2) =
          (rowsLoop a b blo bhi (ahi - alo) alo ((fun _ => 0), alo, blo, 0)).2 := rfl
      rw [this]
      exact hrows)
  exact extFwd_BInv a b alo ahi blo bhi ahi _ hback

theorem flm_spec (a b : Chars) (alo ahi blo bhi : Nat)
    (h : (find_longest_match a b alo ahi blo bhi).2.2 ≠ 0) :
    alo ≤ (find_longest_match a b alo ahi blo bhi).1 ∧
      (find_longest_match a b alo ahi blo bhi).1 +
        (find_longest_match a b alo ahi blo bhi).2.2 ≤ ahi ∧
      blo ≤ (find_longest_match a b alo ahi blo bhi).2.1 ∧
      (find_longest_match a b alo ahi blo bhi).2.1 +
        (find_longest_match a b alo ahi blo bhi).2.2 ≤ bhi ∧
      (find_longest_match a b alo ahi blo bhi).1 +
        (find_longest_match a b alo ahi blo bhi).2.2 ≤ a.length ∧
      (find_longest_match a b alo ahi blo bhi).2.1 +
        (find_longest_match a b alo ahi blo bhi).2.2 ≤ b.length ∧
      ∀ d, d < (find_longest_match a b alo ahi blo bhi).2.2 →
        a.getD ((find_longest_match a b alo ahi blo bhi).1 + d) '?' =
          b.getD ((find_longest_match a b alo ahi blo bhi).2.1 + d) '?' :=
  (flm_BInv a b alo ahi blo bhi).2 h

theorem mta_succ (a b : Chars) (fuel alo ahi blo bhi : Nat) :
    matchesTotalAux a b (fuel + 1) alo ahi blo bhi =
      (if (find_longest_match a b alo ahi blo bhi).2.2 = 0 then 0
        else (find_longest_match a b alo ahi blo bhi).2.2 +
          (if alo < (find_longest_match a b alo ahi blo bhi).1 ∧
              blo < (find_longest_match a b alo ahi blo bhi).2.1 then
            matchesTotalAux a b fuel alo (find_longest_match a b alo ahi blo bhi).1 blo
              (find_longest_match a b alo ahi blo bhi).2.1
          else 0) +
          (if (find_longest_match a b alo ahi blo bhi).1 +
                (find_longest_match a b alo ahi blo bhi).2.2 < ahi ∧
              (find_longest_match a b alo ahi blo bhi).2.1 +
                (find_longest_match a b alo ahi blo bhi).2.2 < bhi then
            matchesTotalAux a b fuel
              ((find_longest_match a b alo ahi blo bhi).1 +
                (find_longest_match a b alo ahi blo bhi).2.2) ahi
              ((find_longest_match a b alo ahi blo bhi).2.1 +
                (find_longest_match a b alo ahi blo bhi).2.2) bhi
          else 0)) := rfl

theorem mta_le (a b : Chars) :
    ∀ (fuel alo ahi blo bhi : Nat),
      matchesTotalAux a b fuel alo ahi blo bhi ≤ ahi - alo ∧
        matchesTotalAux a b fuel alo ahi blo bhi ≤ bhi - blo := by
  intro fuel
  induction fuel with
  | zero => intro alo ahi blo bhi; exact ⟨Nat.zero_le _, Nat.zero_le _⟩
  | succ fuel ih =>
    intro alo ahi blo bhi
    rw [mta_succ]
    by_cases hk : (find_longest_match a b alo ahi blo bhi).2.2 = 0
    · rw [if_pos hk]
      exact ⟨Nat.zero_le _, Nat.zero_le _⟩
    · rw [if_neg hk]
      obtain ⟨hs1, hs2, hs3, hs4, _, _, _⟩ := flm_spec a b alo ahi blo bhi hk
      have hknz : 1 ≤ (find_longest_match a b alo ahi blo bhi).2.2 := by omega
      obtain ⟨hL1, hL2⟩ := ih alo (find_longest_match a b alo ahi blo bhi).1 blo
        (find_longest_match a b alo ahi blo bhi).2.1
      obtain ⟨hR1, hR2⟩ := ih
        ((find_longest_match a b alo ahi blo bhi).1 +
          (find_longest_match a b alo ahi blo bhi).2.2) ahi
        ((find_longest_match a b alo ahi blo bhi).2.1 +
          (find_longest_match a b alo ahi blo bhi).2.2) bhi
      have hLb1 : (if alo < (find_longest_match a b alo ahi blo bhi).1 ∧
            blo < (find_longest_match a b alo ahi blo bhi).2.1 then
          matchesTotalAux a b fuel alo (find_longest_match a b alo ahi blo bhi).1 blo
            (find_longest_match a b alo ahi blo bhi).2.1
        else 0) ≤ (find_longest_match a b alo ahi blo bhi).1 - alo := by
        split
        · exact hL1
        · exact Nat.zero_le _
      have hLb2 : (if alo < (find_longest_match a b alo ahi blo bhi).1 ∧
            blo < (find_longest_match a b alo ahi blo bhi).2.1 then
          matchesTotalAux a b fuel alo (find_longest_match a b alo ahi blo bhi).1 blo
            (find_longest_match a b alo ahi blo bhi).2.1
        else 0) ≤ (find_longest_match a b alo ahi blo bhi).2.1 - blo := by
        split
        · exact hL2
        · exact Nat.zero_le _
      have hRb1 : (if (find_longest_match a b alo ahi blo bhi).1 +
              (find_longest_match a b alo ahi blo bhi).2.2 < ahi ∧
            (find_longest_match a b alo ahi blo bhi).2.1 +
              (find_longest_match a b alo ahi blo bhi).2.2 < bhi then
          matchesTotalAux a b fuel
            ((find_longest_match a b alo ahi blo bhi).1 +
              (find_longest_match a b alo ahi blo bhi).2.2) ahi
            ((find_longest_match a b alo ahi blo bhi).2.1 +
              (find_longest_match a b alo ahi blo bhi).2.2) bhi
        else 0) ≤ ahi - ((find_longest_match a b alo ahi blo bhi).1 +
          (find_longest_match a b alo ahi blo bhi).2.2) := by
        split
        · exact hR1
        · exact Nat.zero_le _
      have hRb2 : (if (find_longest_match a b alo ahi blo bhi).1 +
              (find_longest_match a b alo ahi blo bhi).2.2 < ahi ∧
            (find_longest_match a b alo ahi blo bhi).2.1 +
              (find_longest_match a b alo ahi blo bhi).2.2 < bhi then
          matchesTotalAux a b fuel
            ((find_longest_match a b alo ahi blo bhi).1 +
              (find_longest_match a b alo ahi blo bhi).2.2) ahi
            ((find_longest_match a b alo ahi blo bhi).2.1 +
              (find_longest_match a b alo ahi blo bhi).2.2) bhi
        else 0) ≤ bhi - ((find_longest_match a b alo ahi blo bhi).2.1 +
          (find_longest_match a b alo ahi blo bhi).2.2) := by
        split
        · exact hR2
        · exact Nat.zero_le _
      exact ⟨by omega, by omega⟩

theorem rowLoop_succ (a b : Chars) (i blo : Nat) (old : Nat → Nat) (m j : Nat)
    (st : (Nat → Nat) × Nat × Nat × Nat) :
    rowLoop a b i blo old (m + 1) j st =
      rowLoop a b i blo old m (j + 1) (colStep a b i blo old st j) := rfl

theorem rowsLoop_zero (a b : Chars) (blo bhi i : Nat)
    (st : (Nat → Nat) × Nat × Nat × Nat) : rowsLoop a b blo bhi 0 i st = st := rfl

theorem flm_def (a b : Chars) (alo ahi blo bhi : Nat) :
    find_longest_match a b alo ahi blo bhi =
      extFwd a b ahi bhi ahi (extBack a b alo blo
        (rowsLoop a b blo bhi (ahi - alo) alo (zeroMap, alo, blo, 0)).2.1
        ((rowsLoop a b blo bhi (ahi - alo) alo (zeroMap, alo, blo, 0)).2.1,
          (rowsLoop a b blo bhi (ahi - alo) alo (zeroMap, alo, blo, 0)).2.2.1,
          (rowsLoop a b blo bhi (ahi - alo) alo (zeroMap, alo, blo, 0)).2.2.2)) := rfl

theorem rowLoop_bs_mono (a b : Chars) (i blo : Nat) (old : Nat → Nat) :
    ∀ (m j : Nat) (st : (Nat → Nat) × Nat × Nat × Nat),
      st.2.2.2 ≤ (rowLoop a b i blo old m j st).2.2.2 := by
  intro m
  induction m with
  | zero => intro j st; exact le_refl _
  | succ m ih =>
    intro j st
    rw [rowLoop_succ]
    refine le_trans ?_ (ih (j + 1) (colStep a b i blo old st j))
    unfold colStep
    by_cases hm : matchAt a b i j = true
    · rw [if_pos hm]
      by_cases hlt : st.2.2.2 < colK blo old j
      · rw [if_pos hlt]
        dsimp only
        omega
      · rw [if_neg hlt]
    · simp only [Bool.not_eq_true] at hm
      rw [if_neg (by simp [hm])]

theorem rowLoop_keeps_set (a b : Chars) (i blo : Nat) (old : Nat → Nat) (x : Nat) :
    ∀ (m j : Nat) (st : (Nat → Nat) × Nat × Nat × Nat), x < j →
      (rowLoop a b i blo old m j st).1 x = st.1 x := by
  intro m
  induction m with
  | zero => intro j st _; rfl
  | succ m ih =>
    intro j st hx
    rw [rowLoop_succ, ih (j + 1) (colStep a b i blo old st j) (by omega)]
    unfold colStep
    by_cases hm : matchAt a b i j = true
    · rw [if_pos hm]
      by_cases hlt : st.2.2.2 < colK blo old j
      · rw [if_pos hlt]
        simp only [if_neg (by omega : ¬ x = j)]
      · rw [if_neg hlt]
        simp only [if_neg (by omega : ¬ x = j)]
    · simp only [Bool.not_eq_true] at hm
      rw [if_neg (by simp [hm])]

theorem rowLoop_hits (a b : Chars) (i blo : Nat) (old : Nat → Nat) (jt : Nat)
    (hm : matchAt a b i jt = true) :
    ∀ (m j : Nat) (st : (Nat → Nat) × Nat × Nat × Nat), j ≤ jt → jt < j + m →
      (rowLoop a b i blo old m j st).1 jt = colK blo old jt ∧
        colK blo old jt ≤ (rowLoop a b i blo old m j st).2.2.2 := by
  intro m
  induction m with
  | zero => intro j st h1 h2; omega
  | succ m ih =>
    intro j st h1 h2
    by_cases hj : j = jt
    · subst hj
      have hcol1 : (colStep a b i blo old st j).1 j = colK blo old j := by
        unfold colStep
        rw [if_pos hm]
        by_cases hlt : st.2.2.2 < colK blo old j
        · rw [if_pos hlt]
          simp
        · rw [if_neg hlt]
          simp
      have hcol2 : colK blo old j ≤ (colStep a b i blo old st j).2.2.2 := by
        unfold colStep
        rw [if_pos hm]
        by_cases hlt : st.2.2.2 < colK blo old j
        · rw [if_pos hlt]
        · rw [if_neg hlt]
          dsimp only
          omega
      rw [rowLoop_succ]
      constructor
      · rw [rowLoop_keeps_set a b i blo old j m (j + 1) _ (by omega)]
        exact hcol1
      · exact le_trans hcol2 (rowLoop_bs_mono a b i blo old m (j + 1) _)
    · rw [rowLoop_succ]
      exact ih (j + 1) (colStep a b i blo old st j) (by omega) (by omega)

theorem matchAt_diag (a : Chars) (i : Nat) (h : i < a.length) :
    matchAt a a i i = true := by
  simp [matchAt, h]

theorem rowsLoop_diag (a : Chars) (alo ahi : Nat) (hA : ahi ≤ a.length) :
    ∀ (n i : Nat) (st : (Nat → Nat) × Nat × Nat × Nat),
      alo ≤ i → i + n = ahi →
      (alo < i → st.1 (i - 1) = i - alo) → i - alo ≤ st.2.2.2 →
      ahi - alo ≤ (rowsLoop a a alo ahi n i st).2.2.2 := by
  intro n
  induction n with
  | zero =>
    intro i st hi1 hi2 _ hbs
    have : i = ahi := by omega
    subst this
    exact hbs
  | succ n ih =>
    intro i st hi1 hi2 hdiag hbs
    have hia : i < ahi := by omega
    have hstep := rowLoop_hits a a i alo st.1 i (matchAt_diag a i (by omega))
      (ahi - alo) alo (zeroMap, st.2.1, st.2.2.1, st.2.2.2) hi1 (by omega)
    have hcolk : colK alo st.1 i = i - alo + 1 := by
      unfold colK
      by_cases hlt : alo < i
      · rw [if_pos hlt, hdiag hlt]
      · rw [if_neg hlt]
        omega
    show ahi - alo ≤ (rowsLoop a a alo ahi n (i + 1)
      (rowLoop a a i alo st.1 (ahi - alo) alo (zeroMap, st.2.1, st.2.2.1, st.2.2.2))).2.2.2
    refine ih (i + 1) _ (by omega) (by omega) ?_ ?_
    · intro _
      have h1 := hstep.1
      rw [hcolk] at h1
      have hix : i + 1 - 1 = i := by omega
      have hval : i + 1 - alo = i - alo + 1 := by omega
      rw [hix, hval]
      exact h1
    · have h2 := hstep.2
      rw [hcolk] at h2
      omega

theorem extBack_stop (a b : Chars) (alo blo : Nat) (f : Nat) (st : Nat × Nat × Nat)
    (h : ¬ (alo < st.1 ∧ blo < st.2.1 ∧ matchAt a b (st.1 - 1) (st.2.1 - 1) = true)) :
    extBack a b alo blo f st = st := by
  cases f with
  | zero => rfl
  | succ f =>
    unfold extBack
    rw [if_neg h]

theorem extFwd_stop (a b : Chars) (ahi bhi : Nat) (f : Nat) (st : Nat × Nat × Nat)
    (h : ¬ (st.1 + st.2.2 < ahi ∧ st.2.1 + st.2.2 < bhi ∧
      matchAt a b (st.1 + st.2.2) (st.2.1 + st.2.2) = true)) :
    extFwd a b ahi bhi f st = st := by
  cases f with
  | zero => rfl
  | succ f =>
    unfold extFwd
    rw [if_neg h]

theorem flm_self (a : Chars) (alo ahi : Nat) (hA : ahi ≤ a.length) (hw : alo ≤ ahi) :
    find_longest_match a a alo ahi alo ahi = (alo, alo, ahi - alo) := by
  by_cases heq : alo = ahi
  · subst heq
    rw [flm_def, Nat.sub_self, rowsLoop_zero]
    rw [extBack_stop a a alo alo _ _ (by simp)]
    rw [extFwd_stop a a alo alo _ _ (by simp)]
  · have hlt : alo < ahi := by omega
    have hdiagbs := rowsLoop_diag a alo ahi hA (ahi - alo) alo
      (zeroMap, alo, alo, 0) (le_refl _) (by omega) (by omega) (by simp)
    have hrows := rowsLoop_inv a a alo ahi alo ahi (ahi - alo) alo
      (zeroMap, alo, alo, 0) (le_refl _) (by omega)
      (fun j hj => absurd rfl hj)
      ⟨fun _ => ⟨rfl, rfl⟩, fun h0 => absurd rfl h0⟩
    have hnz : (rowsLoop a a alo ahi (ahi - alo) alo (zeroMap, alo, alo, 0)).2.2.2 ≠ 0 := by
      omega
    obtain ⟨hb1, hb2, hb3, hb4, _, _, _⟩ := hrows.2 hnz
    have hbs : (rowsLoop a a alo ahi (ahi - alo) alo (zeroMap, alo, alo, 0)).2.2.2 =
        ahi - alo := by omega
    have hbi : (rowsLoop a a alo ahi (ahi - alo) alo (zeroMap, alo, alo, 0)).2.1 = alo := by
      omega
    have hbj : (rowsLoop a a alo ahi (ahi - alo) alo (zeroMap, alo, alo, 0)).2.2.1 =
        alo := by omega
    rw [flm_def, hbi, hbj, hbs]
    rw [extBack_stop a a alo alo _ _ (by simp)]
    rw [extFwd_stop a a ahi ahi _ _
      (by
        intro hcon
        obtain ⟨hc1, _, _⟩ := hcon
        dsimp only at hc1
        omega)]

theorem mta_self (a : Chars) (fuel alo ahi : Nat) (hA : ahi ≤ a.length)
    (hw : alo ≤ ahi) (hfuel : ahi - alo < fuel) :
    matchesTotalAux a a fuel alo ahi alo ahi = ahi - alo := by
  cases fuel with
  | zero => omega
  | succ fuel =>
    rw [mta_succ]
    rw [flm_self a alo ahi hA hw]
    by_cases hz : ahi - alo = 0
    · rw [if_pos hz]
      omega
    · rw [if_neg (by dsimp only; omega)]
      dsimp only
      rw [if_neg (by omega)]
      rw [if_neg (by omega)]
      omega

theorem matchesTotal_self (a : Chars) : matchesTotal a a = a.length := by
  unfold matchesTotal
  have := mta_self a (a.length + 1) 0 a.length (le_refl _) (Nat.zero_le _)
    (by omega)
  omega

theorem matchesTotal_le (a b : Chars) :
    matchesTotal a b ≤ a.length ∧ matchesTotal a b ≤ b.length := by
  have := mta_le a b (a.length + 1) 0 a.length 0 b.length
  simpa using this

theorem similarity_self (a : Chars) : similarity a a = 1 := by
  unfold similarity
  by_cases hz : a.length + a.length = 0
  · rw [if_pos hz]
  · rw [if_neg hz]
    rw [matchesTotal_self]
    have hℓ : ((a.length : ℚ) + (a.length : ℚ)) ≠ 0 := by
      have h0 : (0 : ℚ) < (a.length : ℚ) + (a.length : ℚ) := by
        have : 0 < a.length + a.length := by omega
        exact_mod_cast this
      exact ne_of_gt h0
    rw [div_eq_one_iff_eq hℓ]
    ring

theorem similarity_nonneg (a b : Chars) : 0 ≤ similarity a b := by
  unfold similarity
  by_cases hz : a.length + b.length = 0
  · rw [if_pos hz]
    norm_num
  · rw [if_neg hz]
    have hd : (0 : ℚ) < (a.length : ℚ) + (b.length : ℚ) := by
      have : 0 < a.length + b.length := by omega
      exact_mod_cast this
    positivity

theorem similarity_le_one (a b : Chars) : similarity a b ≤ 1 := by
  unfold similarity
  by_cases hz : a.length + b.length = 0
  · rw [if_pos hz]
  · rw [if_neg hz]
    have hd : (0 : ℚ) < (a.length : ℚ) + (b.length : ℚ) := by
      have : 0 < a.length + b.length := by omega
      exact_mod_cast this
    rw [div_le_one hd]
    obtain ⟨h1, h2⟩ := matchesTotal_le a b
    have : 2 * matchesTotal a b ≤ a.length + b.length := by omega
    exact_mod_cast this

theorem list_ext_getD {α : Type} (dflt : α) :
    ∀ (l₁ l₂ : List α), l₁.length = l₂.length →
      (∀ d, d < l₁.length → l₁.getD d dflt = l₂.getD d dflt) → l₁ = l₂ := by
  intro l₁
  induction l₁ with
  | nil =>
    intro l₂ hlen _
    cases l₂ with
    | nil => rfl
    | cons y ys => simp at hlen
  | cons x xs ih =>
    intro l₂ hlen hpt
    cases l₂ with
    | nil => simp at hlen
    | cons y ys =>
      have hx : x = y := by
        have := hpt 0 (by simp)
        simpa using this
      have hxs : xs = ys := by
        refine ih ys (by simpa using hlen) ?_
        intro d hd
        have := hpt (d + 1) (by simpa using Nat.succ_lt_succ hd)
        simpa using this
      rw [hx, hxs]

theorem mta_full (a b : Chars) :
    ∀ (fuel alo ahi blo bhi : Nat),
      ahi ≤ a.length → bhi ≤ b.length → alo ≤ ahi → blo ≤ bhi →
      ahi - alo < fuel →
      matchesTotalAux a b fuel alo ahi blo bhi = ahi - alo →
      matchesTotalAux a b fuel alo ahi blo bhi = bhi - blo →
      ∀ d, d < ahi - alo → a.getD (alo + d) '?' = b.getD (blo + d) '?' := by
  intro fuel
  induction fuel with
  | zero => intro alo ahi blo bhi _ _ _ _ hf; omega
  | succ fuel ih =>
    intro alo ahi blo bhi hA hB hw1 hw2 hfuel hva hvb
    rw [mta_succ] at hva hvb
    by_cases hk : (find_longest_match a b alo ahi blo bhi).2.2 = 0
    · rw [if_pos hk] at hva
      intro d hd
      omega
    · rw [if_neg hk] at hva hvb
      obtain ⟨hs1, hs2, hs3, hs4, hs5, hs6, hrun⟩ := flm_spec a b alo ahi blo bhi hk
      obtain ⟨hL1, hL2⟩ := mta_le a b fuel alo
        (find_longest_match a b alo ahi blo bhi).1 blo
        (find_longest_match a b alo ahi blo bhi).2.1
      obtain ⟨hR1, hR2⟩ := mta_le a b fuel
        ((find_longest_match a b alo ahi blo bhi).1 +
          (find_longest_match a b alo ahi blo bhi).2.2) ahi
        ((find_longest_match a b alo ahi blo bhi).2.1 +
          (find_longest_match a b alo ahi blo bhi).2.2) bhi
      by_cases hc1 : alo < (find_longest_match a b alo ahi blo bhi).1 ∧
          blo < (find_longest_match a b alo ahi blo bhi).2.1 <;>
        by_cases hc2 : (find_longest_match a b alo ahi blo bhi).1 +
            (find_longest_match a b alo ahi blo bhi).2.2 < ahi ∧
          (find_longest_match a b alo ahi blo bhi).2.1 +
            (find_longest_match a b alo ahi blo bhi).2.2 < bhi
      · rw [if_pos hc1, if_pos hc2] at hva hvb
        have hLa : matchesTotalAux a b fuel alo
            (find_longest_match a b alo ahi blo bhi).1 blo
            (find_longest_match a b alo ahi blo bhi).2.1 =
            (find_longest_match a b alo ahi blo bhi).1 - alo := by omega
        have hLb : matchesTotalAux a b fuel alo
            (find_longest_match a b alo ahi blo bhi).1 blo
            (find_longest_match a b alo ahi blo bhi).2.1 =
            (find_longest_match a b alo ahi blo bhi).2.1 - blo := by omega
        have hRa : matchesTotalAux a b fuel
            ((find_longest_match a b alo ahi blo bhi).1 +
              (find_longest_match a b alo ahi blo bhi).2.2) ahi
            ((find_longest_match a b alo ahi blo bhi).2.1 +
              (find_longest_match a b alo ahi blo bhi).2.2) bhi =
            ahi - ((find_longest_match a b alo ahi blo bhi).1 +
              (find_longest_match a b alo ahi blo bhi).2.2) := by omega
        have hRb : matchesTotalAux a b fuel
            ((find_longest_match a b alo ahi blo bhi).1 +
              (find_longest_match a b alo ahi blo bhi).2.2) ahi
            ((find_longest_match a b alo ahi blo bhi).2.1 +
              (find_longest_match a b alo ahi blo bhi).2.2) bhi =
            bhi - ((find_longest_match a b alo ahi blo bhi).2.1 +
              (find_longest_match a b alo ahi blo bhi).2.2) := by omega
        have hleft := ih alo (find_longest_match a b alo ahi blo bhi).1 blo
          (find_longest_match a b alo ahi blo bhi).2.1 (by omega) (by omega)
          (by omega) (by omega) (by omega) hLa (by omega)
        have hright := ih
          ((find_longest_match a b alo ahi blo bhi).1 +
            (find_longest_match a b alo ahi blo bhi).2.2) ahi
          ((find_longest_match a b alo ahi blo bhi).2.1 +
            (find_longest_match a b alo ahi blo bhi).2.2) bhi
          (by omega) (by omega) (by omega) (by omega) (by omega) hRa (by omega)
        intro d hd
        by_cases hd1 : d < (find_longest_match a b alo ahi blo bhi).1 - alo
        · exact hleft d hd1
        · by_cases hd2 : d < (find_longest_match a b alo ahi blo bhi).1 - alo +
              (find_longest_match a b alo ahi blo bhi).2.2
          · have he := hrun (d - ((find_longest_match a b alo ahi blo bhi).1 - alo))
              (by omega)
            have hia : alo + d = (find_longest_match a b alo ahi blo bhi).1 +
                (d - ((find_longest_match a b alo ahi blo bhi).1 - alo)) := by omega
            have hjb : blo + d = (find_longest_match a b alo ahi blo bhi).2.1 +
                (d - ((find_longest_match a b alo ahi blo bhi).1 - alo)) := by omega
            rw [hia, hjb]
            exact he
          · have he := hright (d - ((find_longest_match a b alo ahi blo bhi).1 - alo) -
                (find_longest_match a b alo ahi blo bhi).2.2) (by omega)
            have hia : alo + d = (find_longest_match a b alo ahi blo bhi).1 +
                (find_longest_match a b alo ahi blo bhi).2.2 +
                (d - ((find_longest_match a b alo ahi blo bhi).1 - alo) -
                  (find_longest_match a b alo ahi blo bhi).2.2) := by omega
            have hjb : blo + d = (find_longest_match a b alo ahi blo bhi).2.1 +
                (find_longest_match a b alo ahi blo bhi).2.2 +
                (d - ((find_longest_match a b alo ahi blo bhi).1 - alo) -
                  (find_longest_match a b alo ahi blo bhi).2.2) := by omega
            rw [hia, hjb]
            exact he
      · rw [if_pos hc1, if_neg hc2] at hva hvb
        have hLa : matchesTotalAux a b fuel alo
            (find_longest_match a b alo ahi blo bhi).1 blo
            (find_longest_match a b alo ahi blo bhi).2.1 =
            (find_longest_match a b alo ahi blo bhi).1 - alo := by omega
        have hleft := ih alo (find_longest_match a b alo ahi blo bhi).1 blo
          (find_longest_match a b alo ahi blo bhi).2.1 (by omega) (by omega)
          (by omega) (by omega) (by omega) hLa (by omega)
        intro d hd
        by_cases hd1 : d < (find_longest_match a b alo ahi blo bhi).1 - alo
        · exact hleft d hd1
        · have he := hrun (d - ((find_longest_match a b alo ahi blo bhi).1 - alo))
            (by omega)
          have hia : alo + d = (find_longest_match a b alo ahi blo bhi).1 +
              (d - ((find_longest_match a b alo ahi blo bhi).1 - alo)) := by omega
          have hjb : blo + d = (find_longest_match a b alo ahi blo bhi).2.1 +
              (d - ((find_longest_match a b alo ahi blo bhi).1 - alo)) := by omega
          rw [hia, hjb]
          exact he
      · rw [if_neg hc1, if_pos hc2] at hva hvb
        have hRa : matchesTotalAux a b fuel
            ((find_longest_match a b alo ahi blo bhi).1 +
              (find_longest_match a b alo ahi blo bhi).2.2) ahi
            ((find_longest_match a b alo ahi blo bhi).2.1 +
              (find_longest_match a b alo ahi blo bhi).2.2) bhi =
            ahi - ((find_longest_match a b alo ahi blo bhi).1 +
              (find_longest_match a b alo ahi blo bhi).2.2) := by omega
        have hright := ih
          ((find_longest_match a b alo ahi blo bhi).1 +
            (find_longest_match a b alo ahi blo bhi).2.2) ahi
          ((find_longest_match a b alo ahi blo bhi).2.1 +
            (find_longest_match a b alo ahi blo bhi).2.2) bhi
          (by omega) (by omega) (by omega) (by omega) (by omega) hRa (by omega)
        intro d hd
        by_cases hd2 : d < (find_longest_match a b alo ahi blo bhi).1 - alo +
            (find_longest_match a b alo ahi blo bhi).2.2
        · have he := hrun (d - ((find_longest_match a b alo ahi blo bhi).1 - alo))
            (by omega)
          have hia : alo + d = (find_longest_match a b alo ahi blo bhi).1 +
              (d - ((find_longest_match a b alo ahi blo bhi).1 - alo)) := by omega
          have hjb : blo + d = (find_longest_match a b alo ahi blo bhi).2.1 +
              (d - ((find_longest_match a b alo ahi blo bhi).1 - alo)) := by omega
          rw [hia, hjb]
          exact he
        · have he := hright (d - ((find_longest_match a b alo ahi blo bhi).1 - alo) -
              (find_longest_match a b alo ahi blo bhi).2.2) (by omega)
          have hia : alo + d = (find_longest_match a b alo ahi blo bhi).1 +
              (find_longest_match a b alo ahi blo bhi).2.2 +
              (d - ((find_longest_match a b alo ahi blo bhi).1 - alo) -
                (find_longest_match a b alo ahi blo bhi).2.2) := by omega
          have hjb : blo + d = (find_longest_match a b alo ahi blo bhi).2.1 +
              (find_longest_match a b alo ahi blo bhi).2.2 +
              (d - ((find_longest_match a b alo ahi blo bhi).1 - alo) -
                (find_longest_match a b alo ahi blo bhi).2.2) := by omega
          rw [hia, hjb]
          exact he
      · rw [if_neg hc1, if_neg hc2] at hva hvb
        intro d hd
        have he := hrun (d - ((find_longest_match a b alo ahi blo bhi).1 - alo))
          (by omega)
        have hia : alo + d = (find_longest_match a b alo ahi blo bhi).1 +
            (d - ((find_longest_match a b alo ahi blo bhi).1 - alo)) := by omega
        have hjb : blo + d = (find_longest_match a b alo ahi blo bhi).2.1 +
            (d - ((find_longest_match a b alo ahi blo bhi).1 - alo)) := by omega
        rw [hia, hjb]
        exact he

theorem similarity_eq_one_iff (a b : Chars) : similarity a b = 1 ↔ a = b := by
  constructor
  · intro h
    unfold similarity at h
    by_cases hz : a.length + b.length = 0
    · have ha : a = [] := List.length_eq_zero.mp (by omega)
      have hb : b = [] := List.length_eq_zero.mp (by omega)
      rw [ha, hb]
    · rw [if_neg hz] at h
      have hd : ((a.length : ℚ) + (b.length : ℚ)) ≠ 0 := by
        have h0 : (0 : ℚ) < (a.length : ℚ) + (b.length : ℚ) := by
          have : 0 < a.length + b.length := by omega
          exact_mod_cast this
        exact ne_of_gt h0
      rw [div_eq_one_iff_eq hd] at h
      have h2 : 2 * matchesTotal a b = a.length + b.length := by exact_mod_cast h
      obtain ⟨hle1, hle2⟩ := matchesTotal_le a b
      have hlen : a.length = b.length := by omega
      have hva : matchesTotalAux a b (a.length + 1) 0 a.length 0 b.length =
          a.length - 0 := by
        have : matchesTotal a b = a.length := by omega
        unfold matchesTotal at this
        omega
      have hvb : matchesTotalAux a b (a.length + 1) 0 a.length 0 b.length =
          b.length - 0 := by
        have : matchesTotal a b = b.length := by omega
        unfold matchesTotal at this
        omega
      have hpt := mta_full a b (a.length + 1) 0 a.length 0 b.length (le_refl _)
        (le_refl _) (Nat.zero_le _) (Nat.zero_le _) (by omega) hva hvb
      refine list_ext_getD '?' a b hlen ?_
      intro d hd
      have := hpt d (by omega)
      simpa using this
  · intro h
    rw [h]
    exact similarity_self b

theorem strSim_self (x : Chars) : strSim x x = 1 := similarity_self _

theorem strSim_nonneg (a b : Chars) : 0 ≤ strSim a b := similarity_nonneg _ _

theorem strSim_le_one (a b : Chars) : strSim a b ≤ 1 := similarity_le_one _ _

theorem strSim_eq_one_iff (a b : Chars) :
    strSim a b = 1 ↔ lowerChars a = lowerChars b := similarity_eq_one_iff _ _

/-! ## Lemmas about the summarizer -/

theorem summarize_text_def (provider : Chars → Nat → Nat → Option Chars) (text : Chars) :
    summarize_text provider text =
      (if 400 < countTokensL (joinParas (chunkLoop provider (splitParas text))) then
        match provider (joinParas (chunkLoop provider (splitParas text))) 50 250 with
        | some s => (s, 1)
        | none => (joinParas (chunkLoop provider (splitParas text)), 1)
      else (joinParas (chunkLoop provider (splitParas text)), 0)) := rfl

theorem chunkLoop_cons (provider : Chars → Nat → Nat → Option Chars) (c : Chars)
    (rest : List Chars) :
    chunkLoop provider (c :: rest) =
      (if isBlank c then chunkLoop provider rest
      else match provider c 30 150 with
        | some s => s :: chunkLoop provider rest
        | none => chunkLoop provider rest) := rfl

theorem chunkLoop_eq (provider : Chars → Nat → Nat → Option Chars) :
    ∀ l : List Chars, chunkLoop provider l =
      (l.filter (fun c => ! isBlank c)).filterMap (fun c => provider c 30 150) := by
  intro l
  induction l with
  | nil => rfl
  | cons c rest ih =>
    rw [chunkLoop_cons, List.filter_cons]
    by_cases hb : isBlank c
    · rw [if_pos hb, ih]
      simp [hb]
    · rw [if_neg hb]
      have hbb : (! isBlank c) = true := by simp [hb]
      rw [if_pos hbb, List.filterMap_cons]
      cases hp : provider c 30 150 with
      | none => simpa [hp] using ih
      | some s => simpa [hp] using ih

theorem summarize_shape (provider : Chars → Nat → Nat → Option Chars) (text : Chars) :
    (summarize_text provider text).2 =
      (if 400 < countTokensL (combinedSummary provider text) then 1 else 0) ∧
    (summarize_text provider text).1 =
      (if 400 < countTokensL (combinedSummary provider text) then
        (provider (combinedSummary provider text) 50 250).getD
          (combinedSummary provider text)
      else combinedSummary provider text) := by
  have hc : joinParas (chunkLoop provider (splitParas text)) =
      combinedSummary provider text := by
    rw [combinedSummary, chunkLoop_eq]
  rw [summarize_text_def, hc]
  by_cases h4 : 400 < countTokensL (combinedSummary provider text)
  · rw [if_pos h4, if_pos h4, if_pos h4]
    cases hp : provider (combinedSummary provider text) 50 250 <;>
      simp [hp, Option.getD]
  · rw [if_neg h4, if_neg h4, if_neg h4]
    exact ⟨rfl, rfl⟩

/-! ## Lemmas about the URL-pattern extractor -/

theorem dropWhile_head_false {p : Char → Bool} :
    ∀ (l : Chars) (c : Char) (w : Chars), l.dropWhile p = c :: w → p c = false := by
  intro l
  induction l with
  | nil => intro c w h; simp at h
  | cons x xs ih =>
    intro c w h
    rw [List.dropWhile_cons] at h
    by_cases px : p x = true
    · rw [if_pos px] at h
      exact ih c w h
    · rw [if_neg px] at h
      obtain ⟨rfl, _⟩ := List.cons.inj h
      simpa using px

theorem takeWhile_all {p : Char → Bool} :
    ∀ (l : Chars) (c : Char), c ∈ l.takeWhile p → p c = true := by
  intro l
  induction l with
  | nil => intro c h; simp at h
  | cons x xs ih =>
    intro c h
    rw [List.takeWhile_cons] at h
    by_cases px : p x = true
    · rw [if_pos px] at h
      rcases List.mem_cons.mp h with rfl | h'
      · exact px
      · exact ih c h'
    · rw [if_neg px] at h
      simp at h

theorem matchEpHere_some (s r : Chars) (h : matchEpHere s = some r) :
    ∃ v, s = epsLit ++ r ++ v ∧ r ≠ [] ∧ (∀ c ∈ r, isAlnumC c = true) ∧
      (v = [] ∨ ∃ c w, v = c :: w ∧ isAlnumC c = false) := by
  unfold matchEpHere at h
  by_cases ht : s.take 8 = epsLit
  · rw [if_pos ht] at h
    by_cases hr : (s.drop 8).takeWhile isAlnumC = []
    · rw [if_pos hr] at h
      exact absurd h (by simp)
    · rw [if_neg hr] at h
      have hrr : r = (s.drop 8).takeWhile isAlnumC := by
        have := h.symm
        simpa using this
      refine ⟨(s.drop 8).dropWhile isAlnumC, ?_, ?_, ?_, ?_⟩
      · rw [hrr]
        conv_lhs => rw [← List.take_append_drop 8 s]
        rw [ht, List.append_assoc, List.takeWhile_append_dropWhile]
      · rw [hrr]; exact hr
      · rw [hrr]
        intro c hc
        exact takeWhile_all _ c hc
      · cases hd : (s.drop 8).dropWhile isAlnumC with
        | nil => exact Or.inl rfl
        | cons c w =>
          exact Or.inr ⟨c, w, rfl, dropWhile_head_false _ c w hd⟩
  · rw [if_neg ht] at h
    exact absurd h (by simp)

theorem matchEpHere_at (c : Char) (v : Chars) (hc : isAlnumC c = true) :
    matchEpHere (epsLit ++ c :: v) = some (c :: v.takeWhile isAlnumC) := by
  unfold matchEpHere
  have ht : (epsLit ++ c :: v).take 8 = epsLit := by
    rw [show (8 : Nat) = epsLit.length from rfl]
    exact List.take_left _ _
  have hd : (epsLit ++ c :: v).drop 8 = c :: v := by
    rw [show (8 : Nat) = epsLit.length from rfl]
    exact List.drop_left _ _
  rw [if_pos ht, hd, List.takeWhile_cons, if_pos hc]
  simp

theorem reSearchEp_cons (c : Char) (rest : Chars) :
    reSearchEp (c :: rest) =
      (match matchEpHere (c :: rest) with
        | some r => some r
        | none => reSearchEp rest) := rfl

theorem reSearchEp_of_here (s r : Chars) (h : matchEpHere s = some r) :
    reSearchEp s = some r := by
  cases s with
  | nil =>
    exfalso
    unfold matchEpHere at h
    rw [if_neg (by decide)] at h
    exact absurd h (by simp)
  | cons c rest =>
    rw [reSearchEp_cons, h]

theorem reSearchEp_complete :
    ∀ (u : Chars) (c : Char) (v : Chars), isAlnumC c = true →
      ∃ r, reSearchEp (u ++ epsLit ++ c :: v) = some r := by
  intro u
  induction u with
  | nil =>
    intro c v hc
    refine ⟨c :: v.takeWhile isAlnumC, ?_⟩
    exact reSearchEp_of_here _ _ (by simpa using matchEpHere_at c v hc)
  | cons x u ih =>
    intro c v hc
    rw [List.cons_append, List.cons_append, reSearchEp_cons]
    cases hm : matchEpHere (x :: (u ++ epsLit ++ c :: v)) with
    | some r => exact ⟨r, by simp⟩
    | none =>
      obtain ⟨r, hr⟩ := ih c v hc
      exact ⟨r, by simpa using hr⟩

theorem not_hasEpRef_of_none (s : Chars) (h : reSearchEp s = none) : ¬ hasEpRef s := by
  rintro ⟨u, c, v, rfl, hc⟩
  obtain ⟨r, hr⟩ := reSearchEp_complete u c v hc
  rw [h] at hr
  exact absurd hr (by simp)

theorem reSearchEp_sound :
    ∀ (s r : Chars), reSearchEp s = some r →
      ∃ u v, s = u ++ epsLit ++ r ++ v ∧ r ≠ [] ∧ (∀ c ∈ r, isAlnumC c = true) ∧
        (v = [] ∨ ∃ c w, v = c :: w ∧ isAlnumC c = false) ∧
        (∀ u2 c2 v2, s = u2 ++ epsLit ++ c2 :: v2 → isAlnumC c2 = true →
          u.length ≤ u2.length) := by
  intro s
  induction s with
  | nil => intro r h; simp [reSearchEp] at h
  | cons x rest ih =>
    intro r h
    rw [reSearchEp_cons] at h
    cases hm : matchEpHere (x :: rest) with
    | some r' =>
      rw [hm] at h
      have hrr : r' = r := by simpa using h
      subst hrr
      obtain ⟨v, hsplit, hne, hal, hnext⟩ := matchEpHere_some _ _ hm
      refine ⟨[], v, by simpa using hsplit, hne, hal, hnext, ?_⟩
      intro u2 c2 v2 _ _
      exact Nat.zero_le _
    | none =>
      rw [hm] at h
      simp only at h
      obtain ⟨u, v, hsplit, hne, hal, hnext, hmin⟩ := ih r h
      refine ⟨x :: u, v, by rw [hsplit]; simp, hne, hal, hnext, ?_⟩
      intro u2 c2 v2 hdec hc2
      cases u2 with
      | nil =>
        exfalso
        simp only [List.nil_append] at hdec
        rw [hdec] at hm
        have := matchEpHere_at c2 v2 hc2
        rw [hm] at this
        exact absurd this (by simp)
      | cons y u2' =>
        have hrest : rest = u2' ++ epsLit ++ c2 :: v2 := by
          have := hdec
          simp only [List.cons_append] at this
          exact (List.cons.inj this).2
        have := hmin u2' c2 v2 hrest hc2
        simp only [List.length_cons]
        omega

/-! ## Pipeline fraction bounds -/

theorem dlFrac_bounds (p : ℚ) (h0 : 0 ≤ p) (h1 : p ≤ 1) :
    2/5 ≤ dlFrac p ∧ dlFrac p ≤ 7/10 := by
  unfold dlFrac
  have hm0 : 0 ≤ p * (3/10) := mul_nonneg h0 (by norm_num)
  have hm1 : p * (3/10) ≤ 3/10 := by
    have := mul_le_mul_of_nonneg_right h1 (by norm_num : (0 : ℚ) ≤ 3/10)
    simpa using this
  constructor <;> linarith

theorem trFrac_bounds (p : ℚ) (h0 : 0 ≤ p) (h1 : p ≤ 1) :
    7/10 ≤ trFrac p ∧ trFrac p ≤ 1 := by
  unfold trFrac
  have hm0 : 0 ≤ p * (3/10) := mul_nonneg h0 (by norm_num)
  have hm1 : p * (3/10) ≤ 3/10 := by
    have := mul_le_mul_of_nonneg_right h1 (by norm_num : (0 : ℚ) ≤ 3/10)
    simpa using this
  constructor <;> linarith

theorem search_spotify_def (sp : SpotifyClient) (q : Chars) (limit : Nat) :
    search_spotify_episodes sp q limit =
      (if q = [] then []
      else if sp.searchItems q limit = [] then []
      else if ((sp.searchItems q limit).filterMap (fun o => o)).map (fun e => e.id) = []
        then []
      else sp_episodes sp
        (((sp.searchItems q limit).filterMap (fun o => o)).map (fun e => e.id))) := rfl

/-! ## The claims -/

/-- C6: the claim asserts, among other properties, that the scorer is
symmetric.  It is not: difflib's recursive block matching depends on the
argument order, and at `("ab", "bacb")` the two orders give 2/3 and 1/3. -/
theorem claim_C6_counterexample :
    strSim "ab".data "bacb".data = 2/3 ∧ strSim "bacb".data "ab".data = 1/3 ∧
      strSim "ab".data "bacb".data ≠ strSim "bacb".data "ab".data :=
  ⟨by decide, by decide, by decide⟩

/-- C6 (amended): the scorer is in `[0,1]`, gives every string similarity
1 with itself, and gives 1 exactly on case-insensitively equal strings;
symmetry is dropped. -/
theorem claim_C6_amended (a b x : Chars) :
    0 ≤ strSim a b ∧ strSim a b ≤ 1 ∧ strSim x x = 1 ∧
      (strSim a b = 1 ↔ lowerChars a = lowerChars b) :=
  ⟨strSim_nonneg a b, strSim_le_one a b, strSim_self x, strSim_eq_one_iff a b⟩

/-- C7: `summarize_text` makes exactly one bounded `[50,250]` reduction
call when the blank-line-joined chunk summaries exceed 400 whitespace
tokens — returning its result, or the joined summaries if it fails — and
makes no reduction call (returning the joined summaries) otherwise. -/
theorem claim_C7 (provider : Chars → Nat → Nat → Option Chars) (text : Chars) :
    (summarize_text provider text).2 =
      (if 400 < countTokensL (combinedSummary provider text) then 1 else 0) ∧
    (summarize_text provider text).1 =
      (if 400 < countTokensL (combinedSummary provider text) then
        (provider (combinedSummary provider text) 50 250).getD
          (combinedSummary provider text)
      else combinedSummary provider text) ∧
    combinedSummary provider text =
      joinParas (((splitParas text).filter (fun c => ! isBlank c)).filterMap
        (fun c => provider c 30 150)) :=
  ⟨(summarize_shape provider text).1, (summarize_shape provider text).2, rfl⟩

/-- C8: the claim asserts the output always equals the blank-line join of
the successful chunk summaries; it does not when the join exceeds 400
tokens and the reduction pass succeeds, as with this provider whose only
chunk summary is 401 tokens long. -/
theorem claim_C8_counterexample :
    combinedSummary provLong [ 'a' ] = longToks ∧
      (summarize_text provLong [ 'a' ]).1 = [ 'r' ] ∧
      (summarize_text provLong [ 'a' ]).1 ≠ combinedSummary provLong [ 'a' ] :=
  ⟨by decide, by decide, by decide⟩

/-- C8 (amended): `summarize_text` never raises (it is total); failed
chunks are skipped, the joined summary is the successful non-blank chunks'
summaries in input order joined by blank lines, and the output equals that
join whenever it is at most 400 tokens (otherwise the C7 reduction
applies); on 3 paragraphs with the provider failing on the second, the
output is the first and third summaries joined by a blank line. -/
theorem claim_C8_amended (provider : Chars → Nat → Nat → Option Chars) (text : Chars)
    (h : countTokensL (combinedSummary provider text) ≤ 400) :
    (summarize_text provider text).1 = combinedSummary provider text ∧
    combinedSummary provider text =
      joinParas (((splitParas text).filter (fun c => ! isBlank c)).filterMap
        (fun c => provider c 30 150)) ∧
    (summarize_text provSkipTwo threeParas).1 =
      "s1".data ++ '\n' :: '\n' :: "s3".data := by
  refine ⟨?_, rfl, by decide⟩
  have := (summarize_shape provider text).2
  rw [if_neg (by omega)] at this
  exact this

/-- C8 witness: the 3-paragraph example satisfies the 400-token bound and
the amended claim applies to it. -/
theorem claim_C8_witness :
    countTokensL (combinedSummary provSkipTwo threeParas) ≤ 400 ∧
      (summarize_text provSkipTwo threeParas).1 =
        combinedSummary provSkipTwo threeParas :=
  ⟨by decide, (claim_C8_amended provSkipTwo threeParas (by decide)).1⟩

/-- C9: the claim asserts every element of the returned sequence is
non-null; but the nulls are only filtered from the first-stage simplified
search items, and the batch full-episode lookup the function returns can
itself answer null, as this client shows. -/
theorem claim_C9_counterexample :
    search_spotify_episodes spCex "q".data 10 = [none] ∧
      none ∈ search_spotify_episodes spCex "q".data 10 :=
  ⟨by rfl, by decide⟩

/-- C9 (amended): empty queries and empty provider results yield the empty
sequence without failing; when the provider honours `limit`, the result
has at most `limit` elements; null simplified entries are filtered out
before the ids are collected, and the result is the batch lookup of those
ids in provider-ranked order — but its elements may be null. -/
theorem claim_C9_amended (sp : SpotifyClient) (q : Chars) (limit : Nat) :
    (q = [] → search_spotify_episodes sp q limit = []) ∧
    (sp.searchItems q limit = [] → search_spotify_episodes sp q limit = []) ∧
    ((sp.searchItems q limit).length ≤ limit →
      (search_spotify_episodes sp q limit).length ≤ limit) ∧
    (search_spotify_episodes sp q limit = [] ∨
      search_spotify_episodes sp q limit =
        sp_episodes sp
          (((sp.searchItems q limit).filterMap (fun o => o)).map (fun e => e.id))) := by
  refine ⟨?_, ?_, ?_, ?_⟩
  · intro h
    rw [search_spotify_def, if_pos h]
  · intro h
    rw [search_spotify_def]
    by_cases hq : q = []
    · rw [if_pos hq]
    · rw [if_neg hq, if_pos h]
  · intro h
    rw [search_spotify_def]
    split_ifs
    · simp
    · simp
    · simp
    · have hfm : ((sp.searchItems q limit).filterMap (fun o => o)).length ≤
          (sp.searchItems q limit).length := List.length_filterMap_le _ _
      unfold sp_episodes
      simp only [List.length_map]
      omega
  · rw [search_spotify_def]
    split_ifs
    · exact Or.inl rfl
    · exact Or.inl rfl
    · exact Or.inl rfl
    · exact Or.inr rfl

/-- C9 witness: a client returning one valid and one null item; empty
query yields `[]` and the limit bound holds. -/
theorem claim_C9_witness :
    search_spotify_episodes spGood [] 10 = [] ∧
      (search_spotify_episodes spGood "q".data 10).length ≤ 10 :=
  ⟨(claim_C9_amended spGood [] 10).1 rfl,
    (claim_C9_amended spGood "q".data 10).2.2.1 (by decide)⟩

/-- C10: `extract_episode_id` succeeds exactly on strings containing
`episode/` followed by an alphanumeric character — no scheme or host is
checked — returning the maximal alphanumeric run after the first such
occurrence, and raises the invalid-reference error otherwise; a plain
non-Spotify URL is accepted. -/
theorem claim_C10 (s : Chars) :
    ((∃ t, extract_episode_id s = .ok t) ↔ hasEpRef s) ∧
    (∀ t, extract_episode_id s = .ok t →
      ∃ u v, s = u ++ epsLit ++ t ++ v ∧ t ≠ [] ∧ (∀ c ∈ t, isAlnumC c = true) ∧
        (v = [] ∨ ∃ c w, v = c :: w ∧ isAlnumC c = false) ∧
        (∀ u2 c2 v2, s = u2 ++ epsLit ++ c2 :: v2 → isAlnumC c2 = true →
          u.length ≤ u2.length)) ∧
    ((¬ hasEpRef s) → extract_episode_id s = .error .invalidReference) ∧
    extract_episode_id "http://example.com/episode/abc123".data = .ok "abc123".data := by
  have hsound : ∀ t, extract_episode_id s = .ok t →
      ∃ u v, s = u ++ epsLit ++ t ++ v ∧ t ≠ [] ∧ (∀ c ∈ t, isAlnumC c = true) ∧
        (v = [] ∨ ∃ c w, v = c :: w ∧ isAlnumC c = false) ∧
        (∀ u2 c2 v2, s = u2 ++ epsLit ++ c2 :: v2 → isAlnumC c2 = true →
          u.length ≤ u2.length) := by
    intro t ht
    unfold extract_episode_id at ht
    cases hr : reSearchEp s with
    | none => rw [hr] at ht; exact absurd ht (by simp)
    | some r =>
      rw [hr] at ht
      have : r = t := by simpa using ht
      subst this
      exact reSearchEp_sound s r hr
  refine ⟨⟨?_, ?_⟩, hsound, ?_, by rfl⟩
  · rintro ⟨t, ht⟩
    obtain ⟨u, v, hsplit, hne, hal, _, _⟩ := hsound t ht
    cases t with
    | nil => exact absurd rfl hne
    | cons c trest =>
      refine ⟨u, c, trest ++ v, ?_, hal c (List.mem_cons_self _ _)⟩
      rw [hsplit]
      simp
  · rintro ⟨u, c, v, rfl, hc⟩
    obtain ⟨r, hr⟩ := reSearchEp_complete u c v hc
    refine ⟨r, ?_⟩
    unfold extract_episode_id
    rw [hr]
  · intro hno
    unfold extract_episode_id
    cases hr : reSearchEp s with
    | none => rfl
    | some r =>
      exfalso
      obtain ⟨u, v, hsplit, hne, hal, _, _⟩ := reSearchEp_sound s r hr
      cases r with
      | nil => exact absurd rfl hne
      | cons c trest =>
        refine hno ⟨u, c, trest ++ v, ?_, hal c (List.mem_cons_self _ _)⟩
        rw [hsplit]
        simp

/-- C10 witness: the concrete non-Spotify URL accepted by the extractor,
with its decomposition, and a string with no episode reference rejected
with the invalid-reference error. -/
theorem claim_C10_witness :
    (∃ u v, "http://example.com/episode/abc123".data =
        u ++ epsLit ++ "abc123".data ++ v ∧ "abc123".data ≠ [] ∧
        (∀ c ∈ "abc123".data, isAlnumC c = true) ∧
        (v = [] ∨ ∃ c w, v = c :: w ∧ isAlnumC c = false) ∧
        (∀ u2 c2 v2, "http://example.com/episode/abc123".data =
            u2 ++ epsLit ++ c2 :: v2 → isAlnumC c2 = true →
          u.length ≤ u2.length)) ∧
      extract_episode_id "nope".data = .error .invalidReference :=
  ⟨(claim_C10 "http://example.com/episode/abc123".data).2.1 "abc123".data (by rfl),
    (claim_C10 "nope".data).2.2.1 (not_hasEpRef_of_none _ (by rfl))⟩

/-- C2: `find_episode_in_rss` returns an enclosure URL only for the
selected maximum-similarity entry, only when its score strictly exceeds
0.8 and it has an enclosure; it succeeds whenever those conditions hold,
fails with `EpisodeNotFoundError` in every other case, and rejects a best
entry scoring exactly 0.8 even with an enclosure present. -/
theorem claim_C2 (entries : List FeedEntry) (episode_title : Chars) :
    (∀ u, find_episode_in_rss entries episode_title = .ok u →
      ∃ b, pyMaxBy (entryScore episode_title) entries = some b ∧ b ∈ entries ∧
        (∀ e ∈ entries, entryScore episode_title e ≤ entryScore episode_title b) ∧
        (4 : ℚ)/5 < entryScore episode_title b ∧
        ∃ enc rest, b.enclosures = enc :: rest ∧ u = enc.href) ∧
    (∀ b, pyMaxBy (entryScore episode_title) entries = some b →
      (4 : ℚ)/5 < entryScore episode_title b → b.enclosures ≠ [] →
      ∃ u, find_episode_in_rss entries episode_title = .ok u) ∧
    ((¬ ∃ u, find_episode_in_rss entries episode_title = .ok u) →
      find_episode_in_rss entries episode_title = .error .episodeNotFound) ∧
    find_episode_in_rss [entryAB] "abc".data = .error .episodeNotFound ∧
    entryScore "abc".data entryAB = 4/5 ∧
    entryAB.enclosures ≠ [] := by
  refine ⟨?_, ?_, ?_, by rfl, by decide, by decide⟩
  · intro u hu
    unfold find_episode_in_rss at hu
    cases hmax : pyMaxBy (entryScore episode_title) entries with
    | none => rw [hmax] at hu; exact absurd hu (by simp)
    | some best =>
      rw [hmax] at hu
      dsimp only at hu
      cases hencl : best.enclosures with
      | nil => rw [hencl] at hu; exact absurd hu (by simp)
      | cons enc rest =>
        rw [hencl] at hu
        dsimp only at hu
        by_cases hsc : (4 : ℚ)/5 < entryScore episode_title best
        · rw [if_pos hsc] at hu
          have hu' : enc.href = u := by simpa using hu
          exact ⟨best, rfl, pyMaxBy_mem _ _ _ hmax, pyMaxBy_max _ _ _ hmax, hsc,
            enc, rest, hencl, hu'.symm⟩
        · rw [if_neg hsc] at hu
          exact absurd hu (by simp)
  · intro b hmax hsc hne
    refine ⟨(b.enclosures.headD ⟨[]⟩).href, ?_⟩
    unfold find_episode_in_rss
    rw [hmax]
    dsimp only
    cases hencl : b.enclosures with
    | nil => exact absurd hencl hne
    | cons enc rest =>
      dsimp only
      rw [if_pos hsc]
      rfl
  · intro hno
    unfold find_episode_in_rss
    cases hmax : pyMaxBy (entryScore episode_title) entries with
    | none => rfl
    | some best =>
      dsimp only
      cases hencl : best.enclosures with
      | nil => rfl
      | cons enc rest =>
        by_cases hsc : (4 : ℚ)/5 < entryScore episode_title best
        · exfalso
          refine hno ⟨enc.href, ?_⟩
          unfold find_episode_in_rss
          rw [hmax]
          dsimp only
          rw [hencl]
          dsimp only
          rw [if_pos hsc]
        · dsimp only
          rw [if_neg hsc]

/-- C2 witness: with a single exactly-matching entry the locator succeeds
and returns its enclosure href; all three conditional parts of the claim
apply at concrete inputs. -/
theorem claim_C2_witness :
    (∃ b, pyMaxBy (entryScore "abc".data) [entryABC] = some b ∧ b ∈ [entryABC] ∧
      (∀ e ∈ [entryABC], entryScore "abc".data e ≤ entryScore "abc".data b) ∧
      (4 : ℚ)/5 < entryScore "abc".data b ∧
      ∃ enc rest, b.enclosures = enc :: rest ∧ "u".data = enc.href) ∧
    (∃ u, find_episode_in_rss [entryABC] "abc".data = .ok u) ∧
    find_episode_in_rss ([] : List FeedEntry) "abc".data = .error .episodeNotFound :=
  ⟨(claim_C2 [entryABC] "abc".data).1 "u".data (by rfl),
    (claim_C2 [entryABC] "abc".data).2.1 entryABC (by rfl) (by decide) (by decide),
    (claim_C2 ([] : List FeedEntry) "abc".data).2.2.1
      (fun ⟨u, hu⟩ => Except.noConfusion hu)⟩

/-- C5: `search_itunes_podcast` accepts the maximum-similarity candidate
with no minimum threshold, returning its feed URL — independently of
result order when the maximum is unique — and fails with
`FeedNotFoundError` exactly when the directory returns no results or the
selected candidate lacks a feed URL; the spec's "The Daily" example
returns feedA in both orders. -/
theorem claim_C5 (results : List ITunesResult) (show_name : Chars) :
    (results = [] → search_itunes_podcast results show_name = .error .feedNotFound) ∧
    (∀ b ∈ results,
      (∀ e ∈ results, e ≠ b → resultScore show_name e < resultScore show_name b) →
      search_itunes_podcast results show_name =
        (match b.feedUrl with
          | some u => .ok u
          | none => .error .feedNotFound)) ∧
    (∀ u, search_itunes_podcast results show_name = .ok u →
      ∃ b, pyMaxBy (resultScore show_name) results = some b ∧ b ∈ results ∧
        (∀ e ∈ results, resultScore show_name e ≤ resultScore show_name b) ∧
        b.feedUrl = some u) ∧
    ((¬ ∃ u, search_itunes_podcast results show_name = .ok u) →
      search_itunes_podcast results show_name = .error .feedNotFound) ∧
    search_itunes_podcast [theDaily, dailyShow] "The Daily".data = .ok "feedA".data ∧
    search_itunes_podcast [dailyShow, theDaily] "The Daily".data = .ok "feedA".data := by
  refine ⟨?_, ?_, ?_, ?_, by rfl, by rfl⟩
  · intro h
    subst h
    rfl
  · intro b hb hstrict
    unfold search_itunes_podcast
    have hne : ¬ results.length = 0 := by
      cases results with
      | nil => simp at hb
      | cons x xs => simp
    rw [if_neg hne, pyMaxBy_of_strict_max (resultScore show_name) results b hb hstrict]
  · intro u hu
    unfold search_itunes_podcast at hu
    by_cases hlen : results.length = 0
    · rw [if_pos hlen] at hu
      exact absurd hu (by simp)
    · rw [if_neg hlen] at hu
      cases hmax : pyMaxBy (resultScore show_name) results with
      | none => rw [hmax] at hu; exact absurd hu (by simp)
      | some best =>
        rw [hmax] at hu
        dsimp only at hu
        cases hfu : best.feedUrl with
        | none => rw [hfu] at hu; exact absurd hu (by simp)
        | some w =>
          rw [hfu] at hu
          dsimp only at hu
          have hw : w = u := by simpa using hu
          exact ⟨best, rfl, pyMaxBy_mem _ _ _ hmax, pyMaxBy_max _ _ _ hmax,
            by rw [hfu, hw]⟩
  · intro hno
    unfold search_itunes_podcast
    by_cases hlen : results.length = 0
    · rw [if_pos hlen]
    · rw [if_neg hlen]
      cases hmax : pyMaxBy (resultScore show_name) results with
      | none => rfl
      | some best =>
        dsimp only
        cases hfu : best.feedUrl with
        | none => rfl
        | some w =>
          exfalso
          refine hno ⟨w, ?_⟩
          unfold search_itunes_podcast
          rw [if_neg hlen, hmax]
          dsimp only
          rw [hfu]

/-- C5 witness: "The Daily" strictly out-scores "Daily Show", so the
unique-maximum part applies in both orders; the empty-directory and
success parts apply at concrete inputs. -/
theorem claim_C5_witness :
    (search_itunes_podcast [theDaily, dailyShow] "The Daily".data =
      (match theDaily.feedUrl with
        | some u => Except.ok u
        | none => Except.error PErr.feedNotFound)) ∧
    (search_itunes_podcast [dailyShow, theDaily] "The Daily".data =
      (match theDaily.feedUrl with
        | some u => Except.ok u
        | none => Except.error PErr.feedNotFound)) ∧
    search_itunes_podcast ([] : List ITunesResult) "The Daily".data =
      .error .feedNotFound ∧
    (∃ b, pyMaxBy (resultScore "The Daily".data) [theDaily] = some b ∧
      b ∈ [theDaily] ∧
      (∀ e ∈ [theDaily],
        resultScore "The Daily".data e ≤ resultScore "The Daily".data b) ∧
      b.feedUrl = some "feedA".data) :=
  ⟨(claim_C5 [theDaily, dailyShow] "The Daily".data).2.1 theDaily (by decide)
      (by decide),
    (claim_C5 [dailyShow, theDaily] "The Daily".data).2.1 theDaily (by decide)
      (by decide),
    (claim_C5 ([] : List ITunesResult) "The Daily".data).1 rfl,
    (claim_C5 [theDaily] "The Daily".data).2.2.1 "feedA".data (by rfl)⟩

/-- C3: on every run, either the temporary audio file is never created
(an error before the download block), or the trace shows it created and
later deleted — with the cleanup report — before the run returns,
whatever the outcome. -/
theorem claim_C3 (env : PipelineEnv) :
    (Act.create ∉ (get_transcript_from_url env).trace ∧
      Act.delete ∉ (get_transcript_from_url env).trace) ∨
    ∃ l₁ l₂, (get_transcript_from_url env).trace =
      l₁ ++ Act.create :: l₂ ++
        [Act.delete, Act.status "Cleaning up temporary files." 1] := by
  unfold get_transcript_from_url
  cases h1 : env.episodeId with
  | error e => exact Or.inl ⟨by simp, by simp⟩
  | ok eid =>
  cases h2 : env.episodeInfo with
  | error e => exact Or.inl ⟨by simp, by simp⟩
  | ok info =>
  cases h3 : env.feedUrl with
  | error e => exact Or.inl ⟨by simp, by simp⟩
  | ok fu =>
  cases h4 : env.audioUrl with
  | error e => exact Or.inl ⟨by simp, by simp⟩
  | ok au =>
  cases h5 : env.downloadOk with
  | error e =>
    refine Or.inr ⟨[Act.status "Connecting to Spotify..." (1/20),
      Act.status "Extracting episode information..." (1/10),
      Act.status "Finding podcast RSS feed..." (1/5),
      Act.status "Locating audio file in RSS feed..." (3/10)],
      Act.status "Downloading audio file..." (2/5) ::
        env.downloadSub.map (fun p => Act.status "Downloading..." (dlFrac p)), ?_⟩
    simp
  | ok u =>
  cases h6 : env.transcript with
  | error e =>
    refine Or.inr ⟨[Act.status "Connecting to Spotify..." (1/20),
      Act.status "Extracting episode information..." (1/10),
      Act.status "Finding podcast RSS feed..." (1/5),
      Act.status "Locating audio file in RSS feed..." (3/10)],
      Act.status "Downloading audio file..." (2/5) ::
        env.downloadSub.map (fun p => Act.status "Downloading..." (dlFrac p)) ++
        [Act.status "Transcribing audio (this may take a while)..." (7/10)], ?_⟩
    simp
  | ok text =>
    refine Or.inr ⟨[Act.status "Connecting to Spotify..." (1/20),
      Act.status "Extracting episode information..." (1/10),
      Act.status "Finding podcast RSS feed..." (1/5),
      Act.status "Locating audio file in RSS feed..." (3/10)],
      Act.status "Downloading audio file..." (2/5) ::
        env.downloadSub.map (fun p => Act.status "Downloading..." (dlFrac p)) ++
        [Act.status "Transcribing audio (this may take a while)..." (7/10),
          Act.status "Transcribing..." (trFrac 1),
          Act.status "Transcription complete!" 1], ?_⟩
    simp

/-- C1: the claim maps download sub-progress `p` to `0.30 + 0.40*p`; the
code maps it to `0.40 + 0.30*p`, so at `p = 1/2` the sink receives 11/20,
not the claimed 1/2 (which never appears for the download message). -/
theorem claim_C1_counterexample :
    Act.status "Downloading..." (dlFrac (1/2)) ∈ (get_transcript_from_url envAllOk).trace ∧
      dlFrac (1/2) = 11/20 ∧
      (3/10 + (2/5) * (1/2 : ℚ)) = 1/2 ∧
      Act.status "Downloading..." (1/2) ∉ (get_transcript_from_url envAllOk).trace ∧
      (11/20 : ℚ) ≠ 1/2 :=
  ⟨by decide, by decide, by decide, by decide, by decide⟩

/-- C1 (amended): once the first four stages succeed, the trace starts
with the stage reports at fractions 0.05, 0.10, 0.20, 0.30, the file
creation, the download-start report at 0.40, and then one
`0.40 + 0.30*p` report per download sub-progress value; sub-progress in
`[0,1]` lands in the band `[0.40, 0.70]`, and transcription sub-progress
is mapped by `0.70 + 0.30*p` into `[0.70, 1.00]`. -/
theorem claim_C1_amended (env : PipelineEnv) (eid : String) (info : EpisodeInfo)
    (fu au : String) (h1 : env.episodeId = .ok eid) (h2 : env.episodeInfo = .ok info)
    (h3 : env.feedUrl = .ok fu) (h4 : env.audioUrl = .ok au) :
    (∃ rest, (get_transcript_from_url env).trace =
      [Act.status "Connecting to Spotify..." (1/20),
        Act.status "Extracting episode information..." (1/10),
        Act.status "Finding podcast RSS feed..." (1/5),
        Act.status "Locating audio file in RSS feed..." (3/10),
        Act.create, Act.status "Downloading audio file..." (2/5)] ++
      env.downloadSub.map (fun p => Act.status "Downloading..." (dlFrac p)) ++ rest) ∧
    (∀ p : ℚ, 0 ≤ p → p ≤ 1 → 2/5 ≤ dlFrac p ∧ dlFrac p ≤ 7/10) ∧
    (∀ p : ℚ, 0 ≤ p → p ≤ 1 → 7/10 ≤ trFrac p ∧ trFrac p ≤ 1) := by
  refine ⟨?_, fun p hp0 hp1 => dlFrac_bounds p hp0 hp1,
    fun p hp0 hp1 => trFrac_bounds p hp0 hp1⟩
  unfold get_transcript_from_url
  rw [h1, h2, h3, h4]
  dsimp only
  cases h5 : env.downloadOk with
  | error e =>
    exact ⟨[Act.delete, Act.status "Cleaning up temporary files." 1], by simp⟩
  | ok u =>
  cases h6 : env.transcript with
  | error e =>
    exact ⟨[Act.status "Transcribing audio (this may take a while)..." (7/10),
      Act.delete, Act.status "Cleaning up temporary files." 1], by simp⟩
  | ok text =>
    exact ⟨[Act.status "Transcribing audio (this may take a while)..." (7/10),
      Act.status "Transcribing..." (trFrac 1), Act.status "Transcription complete!" 1,
      Act.delete, Act.status "Cleaning up temporary files." 1], by simp⟩

/-- C1 witness: a fully successful run with one sub-progress report 1/2
has the stated trace shape, and 1/2 lies in the band. -/
theorem claim_C1_witness :
    (∃ rest, (get_transcript_from_url envAllOk).trace =
      [Act.status "Connecting to Spotify..." (1/20),
        Act.status "Extracting episode information..." (1/10),
        Act.status "Finding podcast RSS feed..." (1/5),
        Act.status "Locating audio file in RSS feed..." (3/10),
        Act.create, Act.status "Downloading audio file..." (2/5)] ++
      envAllOk.downloadSub.map (fun p => Act.status "Downloading..." (dlFrac p)) ++
        rest) ∧
    (2/5 ≤ dlFrac (1/2) ∧ dlFrac (1/2) ≤ 7/10) :=
  ⟨(claim_C1_amended envAllOk "e" cexInfo "f" "a" rfl rfl rfl rfl).1,
    (claim_C1_amended envAllOk "e" cexInfo "f" "a" rfl rfl rfl rfl).2.1 (1/2)
      (by decide) (by decide)⟩

/-- C4: the claim says the Status Sink never receives a fraction beyond
the download stage's start when the download fails; but the `finally`
cleanup report always sends fraction 1.0, which exceeds both the claimed
0.30 band start and the actual 0.40 start. -/
theorem claim_C4_counterexample :
    (get_transcript_from_url envDlFail).outcome = .error .downloadError ∧
      Act.status "Cleaning up temporary files." 1 ∈
        (get_transcript_from_url envDlFail).trace ∧
      ((2 : ℚ)/5 < 1) ∧ ((3 : ℚ)/10 < 1) :=
  ⟨by rfl, by decide, by decide, by decide⟩

/-- C4 (amended): when the download fails, the run propagates
`DownloadError`, and the trace is a prefix followed by the file deletion
and a final cleanup report at fraction 1.0; every status fraction in the
prefix is at most 0.70, and at most 0.40 (the actual download-start
fraction) when no sub-progress was delivered. -/
theorem claim_C4_amended (env : PipelineEnv) (eid : String) (info : EpisodeInfo)
    (fu au : String) (h1 : env.episodeId = .ok eid) (h2 : env.episodeInfo = .ok info)
    (h3 : env.feedUrl = .ok fu) (h4 : env.audioUrl = .ok au)
    (h5 : env.downloadOk = .error .downloadError)
    (hp : ∀ p ∈ env.downloadSub, 0 ≤ p ∧ p ≤ 1) :
    (get_transcript_from_url env).outcome = .error .downloadError ∧
    ∃ pre, (get_transcript_from_url env).trace =
        pre ++ [Act.delete, Act.status "Cleaning up temporary files." 1] ∧
      (∀ m q, Act.status m q ∈ pre → q ≤ 7/10) ∧
      (env.downloadSub = [] → ∀ m q, Act.status m q ∈ pre → q ≤ 2/5) := by
  unfold get_transcript_from_url
  rw [h1, h2, h3, h4, h5]
  dsimp only
  refine ⟨rfl, [Act.status "Connecting to Spotify..." (1/20),
    Act.status "Extracting episode information..." (1/10),
    Act.status "Finding podcast RSS feed..." (1/5),
    Act.status "Locating audio file in RSS feed..." (3/10),
    Act.create, Act.status "Downloading audio file..." (2/5)] ++
    env.downloadSub.map (fun p => Act.status "Downloading..." (dlFrac p)), ?_, ?_, ?_⟩
  · simp
  · intro m q hq
    simp only [List.mem_append, List.mem_cons, List.mem_map,
      List.not_mem_nil, or_false, Act.status.injEq] at hq
    rcases hq with ((⟨_, hq⟩ | ⟨_, hq⟩ | ⟨_, hq⟩ | ⟨_, hq⟩ | hcr | ⟨_, hq⟩) |
        ⟨p, hpmem, _, hq⟩)
    · subst hq; norm_num
    · subst hq; norm_num
    · subst hq; norm_num
    · subst hq; norm_num
    · exact absurd hcr (by simp)
    · subst hq; norm_num
    · subst hq
      exact (dlFrac_bounds p (hp p hpmem).1 (hp p hpmem).2).2
  · intro hnil m q hq
    rw [hnil] at hq
    simp only [List.map_nil, List.append_nil, List.mem_cons,
      List.not_mem_nil, or_false, Act.status.injEq] at hq
    rcases hq with ⟨_, hq⟩ | ⟨_, hq⟩ | ⟨_, hq⟩ | ⟨_, hq⟩ | hcr | ⟨_, hq⟩
    · subst hq; norm_num
    · subst hq; norm_num
    · subst hq; norm_num
    · subst hq; norm_num
    · exact absurd hcr (by simp)
    · subst hq; norm_num

/-- C4 witness: the immediately-failing download run satisfies the
amended claim. -/
theorem claim_C4_witness :
    (get_transcript_from_url envDlFail).outcome = .error .downloadError ∧
      ∃ pre, (get_transcript_from_url envDlFail).trace =
          pre ++ [Act.delete, Act.status "Cleaning up temporary files." 1] ∧
        (∀ m q, Act.status m q ∈ pre → q ≤ 7/10) ∧
        (envDlFail.downloadSub = [] → ∀ m q, Act.status m q ∈ pre → q ≤ 2/5) :=
  claim_C4_amended envDlFail "e" cexInfo "f" "a" rfl rfl rfl rfl rfl
    (by intro p hp; simp [envDlFail] at hp)

end Development

end Podcast
